import Mathlib

/-!
The yala logging facade: the immutable logger and the logfmt printer.

A shallow embedding of `logger/logger.go` (the immutable `Logger` value and
its level methods) and of `adapter/printer/printer.go` (the printer adapter
with its `writeFields` / `writeValue` encoder), followed by the properties
proved about them.

Conventions of the embedding

* A Go `string` is a `List Char` (`Str`).  The encoder only ever inspects the
  ASCII characters space, `=`, backslash and double quote, so nothing depends
  on how the other characters are encoded.
* A `strings.Builder` is the text written so far; every write appends to it.
* A Go slice is a header (`Slice`) pointing into a store of backing arrays
  (`Heap`), so that sharing of backing arrays between Logger values is
  visible in the model.
* A run-time panic is an `Except.error`.
-/

namespace Yala

/-- Go `string`, as its sequence of characters. -/
abbrev Str := List Char

/-- The rune `'\\'`. -/
def backslash : Char := Char.ofNat 92

/-- The rune `'"'`. -/
def dquote : Char := Char.ofNat 34

/-- Run-time panics of the Go program that the model can reach. -/
inductive Fault where
  | nilDereference
  | indexOutOfRange
  deriving DecidableEq, Repr

/-- Go `error` values that are not nil: the model keeps the text that the
`Error()` method returns. -/
structure GoError where
  Error : Str
  deriving DecidableEq, Repr

/-- Go `interface{}` values that reach the encoder: the nil interface, a
`string`, a non-nil `error`, and an `int`. -/
inductive Any where
  | nil
  | str (s : Str)
  | err (e : GoError)
  | int (n : Int)
  deriving DecidableEq, Repr

/-! ## Package `strings` and `fmt` -/

namespace strings

/-- Go `strings.ContainsRune(s, r)`. -/
def ContainsRune (s : Str) (r : Char) : Bool :=
  s.contains r

/-- Worker of `ReplaceAll`: a left-to-right scan for non-overlapping
occurrences of `old`; `skip` counts the characters of a matched occurrence
that are still to be passed over. -/
def replaceScan (old new : Str) : Nat → Str → Str
  | _, [] => []
  | skip + 1, _ :: cs => replaceScan old new skip cs
  | 0, c :: cs =>
    if old.isPrefixOf (c :: cs) then
      new ++ replaceScan old new (old.length - 1) cs
    else
      c :: replaceScan old new 0 cs

/-- Go `strings.ReplaceAll(s, old, new)`: every non-overlapping occurrence of
`old` in `s`, found from the left, is replaced by `new`.  For an empty `old`
Go inserts `new` before every character and at the end. -/
def ReplaceAll (s old new : Str) : Str :=
  match old with
  | [] => new ++ s.flatMap (fun c => c :: new)
  | _ :: _ => replaceScan old new 0 s

end strings

namespace fmt

/-- Decimal text of a natural number, most significant digit first. -/
def decimal (n : Nat) : Str :=
  (Nat.toDigits 10 n)

/-- Decimal text of a Go `int`, as the verb `%d` writes it. -/
def formatInt (n : Int) : Str :=
  match n with
  | Int.ofNat m => decimal m
  | Int.negSucc m => '-' :: decimal (m + 1)

/-- Go `fmt.Sprintf("%s", value)` for one operand.  A string is copied, an
`error` contributes its `Error()` text, the nil interface gives
`%!s(<nil>)`, and an `int` is not a valid operand of `%s`, so `fmt` writes
`%!s(int=N)`. -/
def Sprintf_s (value : Any) : Str :=
  match value with
  | Any.nil => "%!s(<nil>)".toList
  | Any.str s => s
  | Any.err e => e.Error
  | Any.int n => "%!s(int=".toList ++ formatInt n ++ ")".toList

end fmt

/-! ## Memory: slices and their backing arrays -/

namespace logger

/-- Modelled from the spec: the declaration of `Level` is not among the
sources; the printer converts it with `string(entry.Level)`, so it is a string
type ("represented canonically by a short literal string"). -/
abbrev Level := Str

/-- Modelled from the spec: the level constants are not among the sources; the
spec gives the texts `INFO`, `WARN` and `ERROR`, and `DEBUG` completes the
closed enumeration. -/
def DebugLevel : Level := "DEBUG".toList

/-- Modelled from the spec: level constant with the text `INFO`. -/
def InfoLevel : Level := "INFO".toList

/-- Modelled from the spec: level constant with the text `WARN`. -/
def WarnLevel : Level := "WARN".toList

/-- Modelled from the spec: level constant with the text `ERROR`. -/
def ErrorLevel : Level := "ERROR".toList

/-- Modelled from the spec: the declaration of `Field` is not among the
sources; `Field{key, value}` and the selectors `f.Key`, `f.Value` give its two
components, "{key: string, value: any}". -/
structure Field where
  Key : Str
  Value : Any
  deriving DecidableEq, Repr

/-- The zero value of `Field`, with which `make` fills a new array. -/
def Field.zero : Field := ⟨[], Any.nil⟩

end logger

open logger in
/-- The store of backing arrays: the address of an array is its position. -/
abbrev Heap := List (List Field)

/-- A Go slice header of type `[]Field`: the backing array (absent for the nil
slice) and the length.  No slice of the program is ever re-sliced or appended
to, so the offset is always 0 and the capacity is never consulted. -/
structure Slice where
  ptr : Option Nat
  len : Nat
  deriving DecidableEq, Repr

namespace Slice

/-- The nil slice, the zero value of `[]Field`. -/
def nil : Slice := ⟨none, 0⟩

/-- The elements a slice denotes in a given store (what `range` iterates). -/
def read (s : Slice) (h : Heap) : List logger.Field :=
  match s.ptr with
  | none => []
  | some p => ((h[p]?).getD []).take s.len

/-- A slice is well formed in a store when its backing array is allocated
there and holds at least `len` elements.  Every slice a Go program can hold
is well formed. -/
def valid (s : Slice) (h : Heap) : Prop :=
  match s.ptr with
  | none => s.len = 0
  | some p => p < h.length ∧ s.len ≤ ((h[p]?).getD []).length

instance (s : Slice) (h : Heap) : Decidable (s.valid h) := by
  unfold valid
  cases s.ptr <;> infer_instance

/-- Go `s[i] = x`: panics when `i` is out of range, otherwise writes into the
backing array. -/
def store (s : Slice) (i : Nat) (x : logger.Field) (h : Heap) : Except Fault Heap :=
  if i < s.len then
    match s.ptr with
    | none => Except.error Fault.nilDereference
    | some p => Except.ok (h.set p (((h[p]?).getD []).set i x))
  else
    Except.error Fault.indexOutOfRange

end Slice

/-- Go `make([]Field, n)`: a fresh backing array of `n` zero values. -/
def make (n : Nat) (h : Heap) : Slice × Heap :=
  (⟨some h.length, n⟩, h ++ [List.replicate n logger.Field.zero])

/-- Go `copy(dst, src)`: the first `min(len(dst), len(src))` elements of `src`
overwrite the start of `dst`. -/
def copy (dst src : Slice) (h : Heap) : Heap :=
  match dst.ptr with
  | none => h
  | some p =>
    let elems := (src.read h).take dst.len
    h.set p (elems ++ ((h[p]?).getD []).drop elems.length)

/-! ## Package `logger` -/

namespace logger

/-- Go `context.Context`: opaque to the logger, only handed on. -/
abbrev Context := Nat

/-- Modelled from the spec: the declaration of `Entry` is not among the
sources; the fields are those the sources select (`Level`, `Message`,
`Fields`, `Error`, `SkippedCallerFrames`), the last one an "integer", kept
unbounded here since its declared width is not known. -/
structure Entry where
  Level : Level
  Message : Str
  Fields : Slice
  Error : Option GoError
  SkippedCallerFrames : Int
  deriving DecidableEq, Repr

/-- The zero value of `Entry`. -/
def Entry.zero : Entry := ⟨[], [], Slice.nil, none, 0⟩

/-- Modelled from the spec: the `Adapter` interface is not among the sources;
its one method is `Log(context, entry)` with no result.  An implementation
reads the entry (through the store, for the fields) and acts on the outside
world `σ`. -/
abbrev Adapter (σ : Type) := Context → Entry → Heap → σ → σ

/-- Go `type Logger struct { entry Entry; adapter Adapter; ctx context.Context }`;
the `adapter` interface value may be nil. -/
structure Logger (σ : Type) where
  entry : Entry
  adapter : Option (Adapter σ)
  ctx : Context

namespace Logger

variable {σ : Type}

/-- The field sequence a Logger carries, read from the store. -/
def fields (l : Logger σ) (h : Heap) : List Field :=
  l.entry.Fields.read h

/-- Go `func (l Logger) With(key string, value interface{}) Logger`. -/
def With (l : Logger σ) (key : Str) (value : Any) (h : Heap) :
    Except Fault (Logger σ × Heap) :=
  let loggerCopy := l
  let newLen := l.entry.Fields.len + 1
  let (fresh, h) := make newLen h
  let loggerCopy := { loggerCopy with entry := { loggerCopy.entry with Fields := fresh } }
  let h := copy loggerCopy.entry.Fields l.entry.Fields h
  match loggerCopy.entry.Fields.store (newLen - 1) ⟨key, value⟩ h with
  | Except.error e => Except.error e
  | Except.ok h => Except.ok (loggerCopy, h)

/-- Go `func (l Logger) WithError(err error) Logger`; `none` is the nil
error.  The receiver is a copy of the struct and no array is written. -/
def WithError (l : Logger σ) (err : Option GoError) : Logger σ :=
  let c := l
  let c := { c with entry := { c.entry with Error := err } }
  c

/-- Go `func (l Logger) WithSkippedCallerFrame() Logger`. -/
def WithSkippedCallerFrame (l : Logger σ) : Logger σ :=
  let c := l
  let c := { c with entry := { c.entry with SkippedCallerFrames := c.entry.SkippedCallerFrames + 1 } }
  c

/-- Go `func (l Logger) log(level Level, msg string)`: calling a method of the
nil `adapter` interface panics. -/
def log (l : Logger σ) (level : Level) (msg : Str) (h : Heap) (w : σ) : Except Fault σ :=
  let e := l.entry
  let e := { e with Level := level }
  let e := { e with Message := msg }
  let e := { e with SkippedCallerFrames := e.SkippedCallerFrames + 3 }
  match l.adapter with
  | none => Except.error Fault.nilDereference
  | some a => Except.ok (a l.ctx e h w)

/-- Go `func (l Logger) Debug(msg string)`. -/
def Debug (l : Logger σ) (msg : Str) (h : Heap) (w : σ) : Except Fault σ :=
  l.log DebugLevel msg h w

/-- Go `func (l Logger) Info(msg string)`. -/
def Info (l : Logger σ) (msg : Str) (h : Heap) (w : σ) : Except Fault σ :=
  l.log InfoLevel msg h w

/-- Go `func (l Logger) Warn(msg string)`. -/
def Warn (l : Logger σ) (msg : Str) (h : Heap) (w : σ) : Except Fault σ :=
  l.log WarnLevel msg h w

/-- Go `func (l Logger) Error(msg string)`. -/
def Error (l : Logger σ) (msg : Str) (h : Heap) (w : σ) : Except Fault σ :=
  l.log ErrorLevel msg h w

/-- A chain `l.With(k₁, v₁).With(k₂, v₂)...` over a list of pairs, in order. -/
def withAll (l : Logger σ) : List (Str × Any) → Heap → Except Fault (Logger σ × Heap)
  | [], h => Except.ok (l, h)
  | (k, v) :: rest, h =>
    match l.With k v h with
    | Except.error e => Except.error e
    | Except.ok (l1, h1) => withAll l1 rest h1

end Logger

/-- An adapter that only records its invocations, in order. -/
def recorder : Adapter (List (Context × Entry)) :=
  fun ctx e _ w => w ++ [(ctx, e)]

end logger

/-! ## Package `printer` -/

namespace printer

open logger

/-- Go `type Printer interface { Println(...interface{}) }`: the effect of one
`Println` call, given its operands, on the outside world `σ`. -/
structure Printer (σ : Type) where
  Println : List Any → σ → σ

/-- Go `type Adapter struct { Printer Printer }`; the interface value may be
nil. -/
structure Adapter (σ : Type) where
  Printer : Option (Printer σ)

/-- Go `func writeValue(builder *strings.Builder, value interface{})`.
`value == "nil"` holds only for the string `"nil"`: an interface value equals
a string only when its dynamic type is `string`. -/
def writeValue (builder : Str) (value : Any) : Str :=
  if value = Any.nil then
    builder ++ "nil".toList
  else if value = Any.str "nil".toList then
    builder ++ [dquote] ++ "nil".toList ++ [dquote]
  else
    let valueStr := fmt.Sprintf_s value
    let valueStr :=
      if strings.ContainsRune valueStr backslash then
        strings.ReplaceAll valueStr [backslash] [backslash, backslash]
      else valueStr
    let valueStr :=
      if strings.ContainsRune valueStr dquote then
        strings.ReplaceAll valueStr [dquote] [backslash, dquote]
      else valueStr
    let requiresQuoting := false
    let requiresQuoting :=
      if strings.ContainsRune valueStr ' ' || strings.ContainsRune valueStr '=' then true
      else requiresQuoting
    let builder := if requiresQuoting then builder ++ [dquote] else builder
    let builder := builder ++ valueStr
    let builder := if requiresQuoting then builder ++ [dquote] else builder
    builder

/-- The loop of `writeFields`: `i` is the index of the next element, `n` is
`len(fields)` of the whole slice. -/
def writeFieldsLoop (n : Nat) : Nat → List Field → Str → Str
  | _, [], builder => builder
  | i, f :: rest, builder =>
    let builder := builder ++ f.Key
    let builder := builder ++ ['=']
    let builder := writeValue builder f.Value
    let notLast : Bool := decide ((i : Int) < (n : Int) - 1)
    let builder := if notLast then builder ++ [' '] else builder
    writeFieldsLoop n (i + 1) rest builder

/-- Go `func writeFields(builder *strings.Builder, fields []logger.Field)`,
over the elements of the slice. -/
def writeFields (builder : Str) (fields : List Field) : Str :=
  writeFieldsLoop fields.length 0 fields builder

/-- Go `func (f Adapter) Log(ctx context.Context, entry logger.Entry)`. -/
def Adapter.Log {σ : Type} (f : Adapter σ) (_ctx : Context) (entry : Entry) (h : Heap)
    (w : σ) : σ :=
  match f.Printer with
  | none => w
  | some p =>
    let builder : Str := []
    let builder := builder ++ entry.Level
    let builder := builder ++ [' ']
    let builder := builder ++ entry.Message
    let builder :=
      if entry.Fields.len > 0 then
        writeFields (builder ++ [' ']) (entry.Fields.read h)
      else builder
    let builder :=
      match entry.Error with
      | some e => writeValue (builder ++ " error=".toList) (Any.err e)
      | none => builder
    p.Println [Any.str builder] w

/-- A printer that records the operands of every `Println` call, in order. -/
def recordingPrinter : Printer (List (List Any)) :=
  ⟨fun args w => w ++ [args]⟩

end printer

/-! ## Reference renderings, following the wording of the specification -/

namespace Spec

open logger

/-- The single-pass escape: a backslash becomes two backslashes, a double
quote becomes backslash-double-quote, every other character stays. -/
def escapeChar (c : Char) : Str :=
  if c = backslash then [backslash, backslash]
  else if c = dquote then [backslash, dquote]
  else [c]

/-- The text `s` escaped character by character, left to right. -/
def escape (s : Str) : Str :=
  s.flatMap escapeChar

/-- Whether a text holds a space or an equals sign. -/
def needsQuotes (s : Str) : Bool :=
  decide (' ' ∈ s) || decide ('=' ∈ s)

/-- The rendering of one value: what `writeValue` appends to the builder. -/
def renderValue (value : Any) : Str :=
  printer.writeValue [] value

/-- One `key=value` pair. -/
def renderPair (f : Field) : Str :=
  f.Key ++ ['='] ++ renderValue f.Value

/-- The pairs joined by exactly one space. -/
def renderFields (fs : List Field) : Str :=
  [' '].intercalate (fs.map renderPair)

/-- The part `F` of a printed line: empty without fields, otherwise a space
and the joined pairs. -/
def fieldsPart (fs : List Field) : Str :=
  if fs = [] then [] else ' ' :: renderFields fs

/-- The part `E` of a printed line: empty without an error, otherwise
` error=` and the rendered error. -/
def errorPart (err : Option GoError) : Str :=
  match err with
  | none => []
  | some e => " error=".toList ++ renderValue (Any.err e)

/-- The text of a printed line as the specification words it:
`LEVEL message [key=value ...] [error=value]`. -/
def line (level message : Str) (fs : List Field) (err : Option GoError) : Str :=
  level ++ [' '] ++ message ++ fieldsPart fs ++ errorPart err

/-- The string form of a value as the specification words it: a string is
its own text, an error its `Error()` text, and any other value its "default
string representation", for an integer the decimal text (for the nil
interface Go writes `<nil>`). -/
def stringForm (value : Any) : Str :=
  match value with
  | Any.nil => "<nil>".toList
  | Any.str s => s
  | Any.err e => e.Error
  | Any.int n => fmt.formatInt n

/-- The quoting law for one value, as stated: its rendering is the escaped
string form between double quotes when the string form holds a space or an
equals sign, and the bare escaped string form when it holds neither. -/
def QuotingLaw (value : Any) : Prop :=
  (needsQuotes (stringForm value) = true →
    renderValue value = [dquote] ++ escape (stringForm value) ++ [dquote]) ∧
  (needsQuotes (stringForm value) = false →
    renderValue value = escape (stringForm value))

end Spec


/-! ## Further definitions: repeated calls, the global functions, decoding -/

/-- The rune of a line feed. -/
def lineFeed : Char := Char.ofNat 10

/-- The rune of a carriage return. -/
def carriageReturn : Char := Char.ofNat 13

/-- The Logger after `n` successive `WithSkippedCallerFrame()` calls. -/
def logger.Logger.withSkippedCallerFrames {σ : Type} (l : logger.Logger σ) :
    Nat → logger.Logger σ
  | 0 => l
  | n + 1 => (logger.Logger.withSkippedCallerFrames l n).WithSkippedCallerFrame

/-- Modelled from the spec: the global logger that `getGlobalLogger()` returns
is not among the sources; it is the "process-wide single adapter reference",
here the value read from the slot at the time of the call. -/
structure logger.Global (σ : Type) where
  adapter : Option (logger.Adapter σ)

/-- Modelled from the spec: the method `WithSkippedCallerFrame(ctx)` of the
global logger is not among the sources; it does "construct a transient Logger
bound to `ctx` and that adapter, apply one extra `WithSkippedCallerFrame`". -/
def logger.Global.WithSkippedCallerFrame {σ : Type} (g : logger.Global σ)
    (ctx : logger.Context) : logger.Logger σ :=
  (logger.Logger.mk logger.Entry.zero g.adapter ctx).WithSkippedCallerFrame

namespace logger

variable {σ : Type}

/-- Go `func globalLoggerWithSkippedCallerFrame(ctx context.Context) Logger`;
`g` is what `getGlobalLogger()` returns. -/
def globalLoggerWithSkippedCallerFrame (g : Global σ) (ctx : Context) : Logger σ :=
  g.WithSkippedCallerFrame ctx

/-- Go `func Debug(ctx context.Context, msg string)`. -/
def Debug (g : Global σ) (ctx : Context) (msg : Str) (h : Heap) (w : σ) : Except Fault σ :=
  (globalLoggerWithSkippedCallerFrame g ctx).Debug msg h w

/-- Go `func Info(ctx context.Context, msg string)`. -/
def Info (g : Global σ) (ctx : Context) (msg : Str) (h : Heap) (w : σ) : Except Fault σ :=
  (globalLoggerWithSkippedCallerFrame g ctx).Info msg h w

/-- Go `func Warn(ctx context.Context, msg string)`. -/
def Warn (g : Global σ) (ctx : Context) (msg : Str) (h : Heap) (w : σ) : Except Fault σ :=
  (globalLoggerWithSkippedCallerFrame g ctx).Warn msg h w

/-- Go `func Error(ctx context.Context, msg string)`. -/
def Error (g : Global σ) (ctx : Context) (msg : Str) (h : Heap) (w : σ) : Except Fault σ :=
  (globalLoggerWithSkippedCallerFrame g ctx).Error msg h w

end logger

/-- The values on which the rendering is claimed to be injective: the nil
value and the strings. -/
def Any.isNilOrString : Any → Bool
  | Any.nil => true
  | Any.str _ => true
  | _ => false

/-- The inverse of `Spec.escape`: a backslash announces one escaped
character. -/
def Spec.unescape : Str → Str
  | [] => []
  | [c] => [c]
  | c :: d :: rest =>
    if c = backslash then d :: Spec.unescape rest
    else c :: Spec.unescape (d :: rest)

/-- A decoder of rendered values: bare `nil` is the nil value, `"nil"` in
quotes the string `nil`, a text that opens with a double quote is a quoted
string, any other text a bare string. -/
def Spec.decodeValue (t : Str) : Any :=
  if t = "nil".toList then Any.nil
  else if t = [dquote] ++ "nil".toList ++ [dquote] then Any.str "nil".toList
  else
    match t with
    | [] => Any.str []
    | c :: rest =>
      if c = dquote then Any.str (Spec.unescape rest.dropLast)
      else Any.str (Spec.unescape t)

/-! ## Lemmas on the store -/

theorem heap_get_append_left (h : Heap) (a : List logger.Field) (p : Nat) (hp : p < h.length) :
    (h ++ [a])[p]? = h[p]? := by
  simp [List.getElem?_append_left hp]

theorem heap_get_append_self (h : Heap) (a : List logger.Field) :
    (h ++ [a])[h.length]? = some a := by
  simp

theorem heap_set_append_self (h : Heap) (a b : List logger.Field) :
    (h ++ [a]).set h.length b = h ++ [b] := by
  simp [List.set_append]

theorem Slice.read_append (s : Slice) (h : Heap) (a : List logger.Field) (hv : s.valid h) :
    s.read (h ++ [a]) = s.read h := by
  unfold Slice.read
  unfold Slice.valid at hv
  cases hp : s.ptr with
  | none => rfl
  | some p =>
    rw [hp] at hv
    simp only
    rw [heap_get_append_left h a p hv.1]

theorem Slice.valid_append (s : Slice) (h : Heap) (a : List logger.Field) (hv : s.valid h) :
    s.valid (h ++ [a]) := by
  unfold Slice.valid at hv ⊢
  cases hp : s.ptr with
  | none => rw [hp] at hv; exact hv
  | some p =>
    rw [hp] at hv
    simp only
    rw [heap_get_append_left h a p hv.1]
    exact ⟨by simp; omega, hv.2⟩

theorem Slice.read_length (s : Slice) (h : Heap) (hv : s.valid h) :
    (s.read h).length = s.len := by
  unfold Slice.read
  unfold Slice.valid at hv
  cases hp : s.ptr with
  | none => rw [hp] at hv; simp [hv]
  | some p =>
    rw [hp] at hv
    simp only [List.length_take]
    omega

theorem logger.Logger.With_eq {σ : Type} (l : logger.Logger σ) (k : Str) (v : Any) (h : Heap)
    (hv : l.entry.Fields.valid h) :
    l.With k v h = Except.ok
      ({ l with entry := { l.entry with Fields := ⟨some h.length, l.entry.Fields.len + 1⟩ } },
        h ++ [l.fields h ++ [⟨k, v⟩]]) := by
  have hlen := Slice.read_length _ h hv
  unfold logger.Logger.With make copy Slice.store
  simp only [Nat.add_sub_cancel, Nat.lt_succ_self, if_true]
  rw [Slice.read_append _ h _ hv]
  simp only [heap_get_append_self, Option.getD_some, heap_set_append_self]
  have h1 : List.take (l.entry.Fields.len + 1) (l.entry.Fields.read h) = l.entry.Fields.read h := by
    apply List.take_of_length_le; omega
  rw [h1, hlen]
  simp [logger.Logger.fields, List.set_append, hlen, List.replicate_succ']

theorem logger.Logger.With_valid {σ : Type} (l : logger.Logger σ) (h : Heap) (a : List logger.Field)
    (ha : a.length = l.entry.Fields.len + 1) :
    Slice.valid ⟨some h.length, l.entry.Fields.len + 1⟩ (h ++ [a]) := by
  unfold Slice.valid
  simp [ha]

theorem Slice.read_fresh (h : Heap) (a : List logger.Field) (n : Nat) (ha : a.length = n) :
    Slice.read ⟨some h.length, n⟩ (h ++ [a]) = a := by
  unfold Slice.read
  simp [ha.symm]

theorem logger.Logger.withAll_spec {σ : Type} (kvs : List (Str × Any)) :
    ∀ (l : logger.Logger σ) (h : Heap), l.entry.Fields.valid h →
      ∃ l1 h1, l.withAll kvs h = Except.ok (l1, h1) ∧
        l1.entry.Fields.valid h1 ∧
        l1.fields h1 = l.fields h ++ kvs.map (fun kv => logger.Field.mk kv.1 kv.2) := by
  induction kvs with
  | nil =>
    intro l h hv
    exact ⟨l, h, rfl, hv, by simp⟩
  | cons kv rest ih =>
    intro l h hv
    obtain ⟨k, v⟩ := kv
    have hlen : (l.fields h ++ [logger.Field.mk k v]).length = l.entry.Fields.len + 1 := by
      simp [logger.Logger.fields, Slice.read_length _ h hv]
    obtain ⟨l1, h1, hrun, hv1, hf1⟩ := ih
      ({ l with entry := { l.entry with Fields := ⟨some h.length, l.entry.Fields.len + 1⟩ } })
      (h ++ [l.fields h ++ [⟨k, v⟩]]) (logger.Logger.With_valid l h _ hlen)
    refine ⟨l1, h1, ?_, hv1, ?_⟩
    · simp only [logger.Logger.withAll, logger.Logger.With_eq l k v h hv]
      exact hrun
    · rw [hf1]
      simp only [logger.Logger.fields] at hlen ⊢
      rw [Slice.read_fresh h _ _ hlen]
      simp

/-- C1: the field sequence of `l.With(k, v)` is that of `l` followed by the
single `Field{k, v}`; hence a chain of `With` calls over any finite list of
pairs, started from a Logger without fields, yields exactly that list as the
field sequence, in call order and of the same length, repeated keys
included. -/
theorem C1_with_appends_in_call_order {σ : Type} (l : logger.Logger σ) (h : Heap)
    (hv : l.entry.Fields.valid h) :
    (∀ (k : Str) (v : Any), ∃ l1 h1, l.With k v h = Except.ok (l1, h1) ∧
        l1.fields h1 = l.fields h ++ [⟨k, v⟩]) ∧
    (l.fields h = [] → ∀ kvs : List (Str × Any), ∃ l1 h1,
        l.withAll kvs h = Except.ok (l1, h1) ∧
        l1.fields h1 = kvs.map (fun kv => logger.Field.mk kv.1 kv.2) ∧
        (l1.fields h1).length = kvs.length) := by
  constructor
  · intro k v
    have hlen : (l.fields h ++ [logger.Field.mk k v]).length = l.entry.Fields.len + 1 := by
      simp [logger.Logger.fields, Slice.read_length _ h hv]
    refine ⟨_, _, logger.Logger.With_eq l k v h hv, ?_⟩
    simp only [logger.Logger.fields] at hlen ⊢
    exact Slice.read_fresh h _ _ hlen
  · intro hnil kvs
    obtain ⟨l1, h1, hrun, _, hf⟩ := logger.Logger.withAll_spec kvs l h hv
    refine ⟨l1, h1, hrun, ?_, ?_⟩
    · rw [hf, hnil]; rfl
    · rw [hf, hnil]; simp

/-- C1 at a concrete input: three `With` calls on the zero Logger, two of them
with the same key, leave the three pairs in call order. -/
theorem C1_with_appends_in_call_order_witness :
    Slice.valid (logger.Entry.zero).Fields [] ∧
    ∃ l1 h1,
      (logger.Logger.mk logger.Entry.zero (none : Option (logger.Adapter Unit)) 0).withAll
        [("k".toList, Any.str "a".toList), ("j".toList, Any.int 3), ("k".toList, Any.nil)] []
        = Except.ok (l1, h1) ∧
      l1.fields h1 = [⟨"k".toList, Any.str "a".toList⟩, ⟨"j".toList, Any.int 3⟩,
        ⟨"k".toList, Any.nil⟩] ∧
      (l1.fields h1).length = 3 :=
  ⟨by decide,
    (C1_with_appends_in_call_order
      (logger.Logger.mk logger.Entry.zero (none : Option (logger.Adapter Unit)) 0) []
      (by decide)).2 rfl
      [("k".toList, Any.str "a".toList), ("j".toList, Any.int 3), ("k".toList, Any.nil)]⟩

theorem logger.Logger.With_frame {σ : Type} (l : logger.Logger σ) (k : Str) (v : Any) (h : Heap)
    (hv : l.entry.Fields.valid h) :
    ∃ l1 h1, l.With k v h = Except.ok (l1, h1) ∧
      l1.adapter = l.adapter ∧ l1.ctx = l.ctx ∧
      l1.entry.Error = l.entry.Error ∧
      l1.entry.SkippedCallerFrames = l.entry.SkippedCallerFrames ∧
      l1.entry.Fields.valid h1 ∧
      l1.fields h1 = l.fields h ++ [⟨k, v⟩] ∧
      ∀ s : Slice, s.valid h → s.valid h1 ∧ s.read h1 = s.read h := by
  have hlen : (l.fields h ++ [logger.Field.mk k v]).length = l.entry.Fields.len + 1 := by
    simp [logger.Logger.fields, Slice.read_length _ h hv]
  refine ⟨_, _, logger.Logger.With_eq l k v h hv, rfl, rfl, rfl, rfl,
    logger.Logger.With_valid l h _ hlen, ?_, ?_⟩
  · simp only [logger.Logger.fields] at hlen ⊢
    exact Slice.read_fresh h _ _ hlen
  · intro s hs
    exact ⟨Slice.valid_append s h _ hs, Slice.read_append s h _ hs⟩

/-- C2: a Logger is immutable.  `With` on `l` (or on a Logger derived from `l`
by `WithError` or `WithSkippedCallerFrame`, which shares the slice of `l`)
returns without a fault and leaves the fields of `l` as they were, the error,
counter, adapter and context being copied; `WithError` and
`WithSkippedCallerFrame` keep the slice header of `l`.  Two Loggers `a` and `b`
derived from `l` by `With` are independent: after both calls, and after a
further `With` on either of them, `a` holds the fields of `l` followed by
`(k1, v1)` and `b` those of `l` followed by `(k2, v2)`. -/
theorem C2_logger_is_immutable {σ : Type} (l : logger.Logger σ) (h : Heap)
    (hv : l.entry.Fields.valid h) (k1 k2 k3 : Str) (v1 v2 v3 : Any) (e : Option GoError) :
    (∃ a h1, l.With k1 v1 h = Except.ok (a, h1) ∧ l.fields h1 = l.fields h ∧
      a.entry.Error = l.entry.Error ∧
      a.entry.SkippedCallerFrames = l.entry.SkippedCallerFrames ∧
      a.adapter = l.adapter ∧ a.ctx = l.ctx ∧
      ∃ b h2, l.With k2 v2 h1 = Except.ok (b, h2) ∧ l.fields h2 = l.fields h ∧
        a.fields h2 = l.fields h ++ [⟨k1, v1⟩] ∧
        b.fields h2 = l.fields h ++ [⟨k2, v2⟩] ∧
        (∃ c h3, a.With k3 v3 h2 = Except.ok (c, h3) ∧ l.fields h3 = l.fields h ∧
          a.fields h3 = l.fields h ++ [⟨k1, v1⟩] ∧
          b.fields h3 = l.fields h ++ [⟨k2, v2⟩] ∧
          c.fields h3 = l.fields h ++ [⟨k1, v1⟩, ⟨k3, v3⟩]) ∧
        (∃ c h3, b.With k3 v3 h2 = Except.ok (c, h3) ∧ l.fields h3 = l.fields h ∧
          a.fields h3 = l.fields h ++ [⟨k1, v1⟩] ∧
          b.fields h3 = l.fields h ++ [⟨k2, v2⟩] ∧
          c.fields h3 = l.fields h ++ [⟨k2, v2⟩, ⟨k3, v3⟩])) ∧
    ((l.WithError e).entry.Fields = l.entry.Fields ∧
      ∃ d h1, (l.WithError e).With k1 v1 h = Except.ok (d, h1) ∧ l.fields h1 = l.fields h ∧
        (l.WithError e).fields h1 = l.fields h) ∧
    ((l.WithSkippedCallerFrame).entry.Fields = l.entry.Fields ∧
      ∃ d h1, (l.WithSkippedCallerFrame).With k1 v1 h = Except.ok (d, h1) ∧
        l.fields h1 = l.fields h ∧ (l.WithSkippedCallerFrame).fields h1 = l.fields h) := by
  refine ⟨?_, ⟨rfl, ?_⟩, ⟨rfl, ?_⟩⟩
  · obtain ⟨a, h1, ha, had, hctx, herr, hskip, hva, hfa, hfr1⟩ :=
      logger.Logger.With_frame l k1 v1 h hv
    have hl1 := hfr1 _ hv
    obtain ⟨b, h2, hb, _, _, _, _, hvb, hfb, hfr2⟩ :=
      logger.Logger.With_frame l k2 v2 h1 hl1.1
    have hl2 := hfr2 _ hl1.1
    have ha2 := hfr2 _ hva
    have hlf2 : l.fields h2 = l.fields h := by
      simp only [logger.Logger.fields] at *
      rw [hl2.2, hl1.2]
    have haf2 : a.fields h2 = l.fields h ++ [⟨k1, v1⟩] := by
      simp only [logger.Logger.fields] at *
      rw [ha2.2, hfa]
    have hbf2 : b.fields h2 = l.fields h ++ [⟨k2, v2⟩] := by
      simp only [logger.Logger.fields] at *
      rw [hfb, hl1.2]
    refine ⟨a, h1, ha, hl1.2, herr, hskip, had, hctx, b, h2, hb, hlf2, haf2, hbf2, ?_, ?_⟩
    · obtain ⟨c, h3, hc, _, _, _, _, _, hfc, hfr3⟩ := logger.Logger.With_frame a k3 v3 h2 ha2.1
      refine ⟨c, h3, hc, ?_, ?_, ?_, ?_⟩
      · simp only [logger.Logger.fields] at *
        rw [(hfr3 _ hl2.1).2, hlf2]
      · simp only [logger.Logger.fields] at *
        rw [(hfr3 _ ha2.1).2, haf2]
      · simp only [logger.Logger.fields] at *
        rw [(hfr3 _ hvb).2, hbf2]
      · rw [hfc, haf2]; simp
    · obtain ⟨c, h3, hc, _, _, _, _, _, hfc, hfr3⟩ := logger.Logger.With_frame b k3 v3 h2 hvb
      refine ⟨c, h3, hc, ?_, ?_, ?_, ?_⟩
      · simp only [logger.Logger.fields] at *
        rw [(hfr3 _ hl2.1).2, hlf2]
      · simp only [logger.Logger.fields] at *
        rw [(hfr3 _ ha2.1).2, haf2]
      · simp only [logger.Logger.fields] at *
        rw [(hfr3 _ hvb).2, hbf2]
      · rw [hfc, hbf2]; simp
  · obtain ⟨d, h1, hd, _, _, _, _, _, _, hfr⟩ :=
      logger.Logger.With_frame (l.WithError e) k1 v1 h hv
    exact ⟨d, h1, hd, (hfr _ hv).2, (hfr _ hv).2⟩
  · obtain ⟨d, h1, hd, _, _, _, _, _, _, hfr⟩ :=
      logger.Logger.With_frame (l.WithSkippedCallerFrame) k1 v1 h hv
    exact ⟨d, h1, hd, (hfr _ hv).2, (hfr _ hv).2⟩

/-- C2 at a concrete input: a parent with one field, from which two Loggers
are derived by `With`. -/
theorem C2_logger_is_immutable_witness :
    Slice.valid ⟨some 0, 1⟩ [[⟨"r".toList, Any.int 1⟩]] ∧
    ∃ a h1,
      (logger.Logger.mk { logger.Entry.zero with Fields := ⟨some 0, 1⟩ }
        (none : Option (logger.Adapter Unit)) 0).With "x".toList Any.nil
        [[⟨"r".toList, Any.int 1⟩]] = Except.ok (a, h1) ∧
      ∃ b h2,
        (logger.Logger.mk { logger.Entry.zero with Fields := ⟨some 0, 1⟩ }
          (none : Option (logger.Adapter Unit)) 0).With "y".toList (Any.int 2) h1
          = Except.ok (b, h2) ∧
        a.fields h2 = [⟨"r".toList, Any.int 1⟩, ⟨"x".toList, Any.nil⟩] ∧
        b.fields h2 = [⟨"r".toList, Any.int 1⟩, ⟨"y".toList, Any.int 2⟩] := by
  obtain ⟨a, h1, ha, _, _, _, _, _, b, h2, hb, _, haf, hbf, _⟩ :=
    (C2_logger_is_immutable
      (logger.Logger.mk { logger.Entry.zero with Fields := ⟨some 0, 1⟩ }
        (none : Option (logger.Adapter Unit)) 0)
      [[⟨"r".toList, Any.int 1⟩]] (by decide)
      "x".toList "y".toList "z".toList Any.nil (Any.int 2) Any.nil none).1
  exact ⟨by decide, a, h1, ha, b, h2, hb, haf, hbf⟩

/-- C3: `l.WithError(e)` is `l` with the entry's Error set to `e`: the fields
(slice header and elements), the skipped-frame counter, the adapter and the
context are those of `l`; a second `WithError` overwrites the first, so
`l.WithError(e1).WithError(e2)` equals `l.WithError(e2)` and carries `e2`. -/
theorem C3_with_error_sets_only_the_error {σ : Type} (l : logger.Logger σ)
    (e e1 e2 : Option GoError) (h : Heap) :
    (l.WithError e).entry.Error = e ∧
    (l.WithError e).entry.Fields = l.entry.Fields ∧
    (l.WithError e).fields h = l.fields h ∧
    (l.WithError e).entry.SkippedCallerFrames = l.entry.SkippedCallerFrames ∧
    (l.WithError e).entry.Level = l.entry.Level ∧
    (l.WithError e).entry.Message = l.entry.Message ∧
    (l.WithError e).adapter = l.adapter ∧
    (l.WithError e).ctx = l.ctx ∧
    (l.WithError e1).WithError e2 = l.WithError e2 ∧
    ((l.WithError e1).WithError e2).entry.Error = e2 :=
  ⟨rfl, rfl, rfl, rfl, rfl, rfl, rfl, rfl, rfl, rfl⟩

/-- C4: on a Logger bound to an adapter `a`, each of `Debug`, `Info`, `Warn`
and `Error` returns after one invocation `a.Log(ctx, entry)` with the Logger's
context and the entry whose Level is the method's level, whose Message is the
argument, whose SkippedCallerFrames is the Logger's counter plus 3 and whose
Fields and Error are those of the Logger; with the recording adapter in the
place of `a` the record grows by exactly that one invocation. -/
theorem C4_level_methods_invoke_adapter_once {σ : Type} (l : logger.Logger σ)
    (a : logger.Adapter σ) (ha : l.adapter = some a) (m : Str) (h : Heap) (w : σ)
    (t : List (logger.Context × logger.Entry)) :
    l.Debug m h w = Except.ok (a l.ctx ⟨logger.DebugLevel, m, l.entry.Fields, l.entry.Error,
      l.entry.SkippedCallerFrames + 3⟩ h w) ∧
    l.Info m h w = Except.ok (a l.ctx ⟨logger.InfoLevel, m, l.entry.Fields, l.entry.Error,
      l.entry.SkippedCallerFrames + 3⟩ h w) ∧
    l.Warn m h w = Except.ok (a l.ctx ⟨logger.WarnLevel, m, l.entry.Fields, l.entry.Error,
      l.entry.SkippedCallerFrames + 3⟩ h w) ∧
    l.Error m h w = Except.ok (a l.ctx ⟨logger.ErrorLevel, m, l.entry.Fields, l.entry.Error,
      l.entry.SkippedCallerFrames + 3⟩ h w) ∧
    (logger.Logger.mk l.entry (some logger.recorder) l.ctx).Debug m h t =
      Except.ok (t ++ [(l.ctx, ⟨logger.DebugLevel, m, l.entry.Fields, l.entry.Error,
        l.entry.SkippedCallerFrames + 3⟩)]) ∧
    (logger.Logger.mk l.entry (some logger.recorder) l.ctx).Info m h t =
      Except.ok (t ++ [(l.ctx, ⟨logger.InfoLevel, m, l.entry.Fields, l.entry.Error,
        l.entry.SkippedCallerFrames + 3⟩)]) ∧
    (logger.Logger.mk l.entry (some logger.recorder) l.ctx).Warn m h t =
      Except.ok (t ++ [(l.ctx, ⟨logger.WarnLevel, m, l.entry.Fields, l.entry.Error,
        l.entry.SkippedCallerFrames + 3⟩)]) ∧
    (logger.Logger.mk l.entry (some logger.recorder) l.ctx).Error m h t =
      Except.ok (t ++ [(l.ctx, ⟨logger.ErrorLevel, m, l.entry.Fields, l.entry.Error,
        l.entry.SkippedCallerFrames + 3⟩)]) := by
  obtain ⟨entry, adapter, ctx⟩ := l
  simp only at ha
  subst ha
  exact ⟨rfl, rfl, rfl, rfl, rfl, rfl, rfl, rfl⟩

/-- C4 at a concrete input: `Warn` on a Logger with the recording adapter,
context 7, counter 1 and an error. -/
theorem C4_level_methods_invoke_adapter_once_witness :
    (logger.Logger.mk ⟨[], [], Slice.nil, some ⟨"e".toList⟩, 1⟩ (some logger.recorder) 7).adapter
      = some logger.recorder ∧
    (logger.Logger.mk ⟨[], [], Slice.nil, some ⟨"e".toList⟩, 1⟩ (some logger.recorder) 7).Warn
      "m".toList [] [] =
      Except.ok [(7, ⟨"WARN".toList, "m".toList, Slice.nil, some ⟨"e".toList⟩, 4⟩)] :=
  ⟨rfl, (C4_level_methods_invoke_adapter_once
    (logger.Logger.mk ⟨[], [], Slice.nil, some ⟨"e".toList⟩, 1⟩ (some logger.recorder) 7)
    logger.recorder rfl "m".toList [] [] []).2.2.1⟩

/-! ## Lemmas on the encoder -/

theorem strings.replaceScan_single (c : Char) (new s : Str) :
    strings.replaceScan [c] new 0 s = s.flatMap (fun x => if x = c then new else [x]) := by
  induction s with
  | nil => rfl
  | cons x xs ih =>
    by_cases hx : x = c
    · subst hx
      simp [strings.replaceScan, ih]
    · have hx2 : ¬ c = x := fun hc => hx hc.symm
      simp [strings.replaceScan, ih, hx, hx2]

theorem strings.ReplaceAll_single (c : Char) (new s : Str) :
    strings.ReplaceAll s [c] new = s.flatMap (fun x => if x = c then new else [x]) := by
  simp only [strings.ReplaceAll]
  exact strings.replaceScan_single c new s

theorem strings.flatMap_absent (c : Char) (new s : Str) (hc : c ∉ s) :
    s.flatMap (fun x => if x = c then new else [x]) = s := by
  induction s with
  | nil => rfl
  | cons x xs ih =>
    have hx : ¬ x = c := fun hxc => hc (by simp [hxc])
    have hxs : c ∉ xs := fun hm => hc (List.mem_cons_of_mem _ hm)
    simp [List.flatMap_cons, hx, ih hxs]

theorem strings.ContainsRune_iff (s : Str) (r : Char) :
    strings.ContainsRune s r = true ↔ r ∈ s := by
  simp [strings.ContainsRune]

/-- The guarded `ReplaceAll` of `writeValue` is the unguarded replacement. -/
theorem strings.guarded_replace (c : Char) (new s : Str) :
    (if strings.ContainsRune s c then strings.ReplaceAll s [c] new else s) =
      s.flatMap (fun x => if x = c then new else [x]) := by
  by_cases hc : c ∈ s
  · rw [if_pos ((strings.ContainsRune_iff s c).2 hc), strings.ReplaceAll_single]
  · have hn : ¬ strings.ContainsRune s c = true := fun hh => hc ((strings.ContainsRune_iff s c).1 hh)
    rw [if_neg hn, strings.flatMap_absent c new s hc]

theorem Spec.escape_two_pass (s : Str) :
    (s.flatMap (fun x => if x = backslash then [backslash, backslash] else [x])).flatMap
      (fun x => if x = dquote then [backslash, dquote] else [x]) = Spec.escape s := by
  induction s with
  | nil => rfl
  | cons x xs ih =>
    have hbd : ¬ backslash = dquote := by decide
    simp only [List.flatMap_cons, List.flatMap_append, ih, Spec.escape]
    congr 1
    by_cases h1 : x = backslash
    · subst h1
      simp [Spec.escapeChar, hbd]
    · by_cases h2 : x = dquote
      · subst h2
        simp [Spec.escapeChar, h1]
      · simp [Spec.escapeChar, h1, h2]

theorem Spec.mem_escape_of_plain (c : Char) (hb : c ≠ backslash) (hd : c ≠ dquote) (s : Str) :
    c ∈ Spec.escape s ↔ c ∈ s := by
  induction s with
  | nil => simp [Spec.escape]
  | cons x xs ih =>
    simp only [Spec.escape, List.flatMap_cons, List.mem_append, List.mem_cons] at ih ⊢
    rw [ih]
    have hx : c ∈ Spec.escapeChar x ↔ c = x := by
      unfold Spec.escapeChar
      by_cases h1 : x = backslash
      · subst h1; simp [hb]
      · by_cases h2 : x = dquote
        · subst h2; simp [h1, hb, hd]
        · simp [h1, h2]
    rw [hx]

theorem Spec.needsQuotes_escape (s : Str) :
    (strings.ContainsRune (Spec.escape s) ' ' || strings.ContainsRune (Spec.escape s) '=') =
      Spec.needsQuotes s := by
  have h1 := Spec.mem_escape_of_plain ' ' (by decide) (by decide) s
  have h2 := Spec.mem_escape_of_plain '=' (by decide) (by decide) s
  simp only [strings.ContainsRune, Spec.needsQuotes]
  simp [h1, h2]

/-- What `writeValue` appends for a value that is neither nil nor the string
`nil`: the escaped string form, between double quotes when the string form
holds a space or an equals sign. -/
theorem printer.writeValue_general (builder : Str) (value : Any) (h1 : value ≠ Any.nil)
    (h2 : value ≠ Any.str "nil".toList) :
    printer.writeValue builder value =
      if Spec.needsQuotes (fmt.Sprintf_s value) then
        builder ++ [dquote] ++ Spec.escape (fmt.Sprintf_s value) ++ [dquote]
      else builder ++ Spec.escape (fmt.Sprintf_s value) := by
  unfold printer.writeValue
  rw [if_neg h1, if_neg h2]
  simp only [strings.guarded_replace, Spec.escape_two_pass, Spec.needsQuotes_escape]
  cases Spec.needsQuotes (fmt.Sprintf_s value) <;> simp

theorem printer.writeValue_append (builder : Str) (value : Any) :
    printer.writeValue builder value = builder ++ printer.writeValue [] value := by
  by_cases h1 : value = Any.nil
  · simp [printer.writeValue, h1]
  · by_cases h2 : value = Any.str "nil".toList
    · simp [printer.writeValue, h2]
    · rw [printer.writeValue_general builder value h1 h2, printer.writeValue_general [] value h1 h2]
      cases Spec.needsQuotes (fmt.Sprintf_s value) <;> simp

theorem printer.writeFieldsLoop_eq (n : Nat) (fs : List logger.Field) :
    ∀ (i : Nat) (builder : Str), i + fs.length = n →
      printer.writeFieldsLoop n i fs builder = builder ++ Spec.renderFields fs := by
  induction fs with
  | nil =>
    intro i builder _
    simp [printer.writeFieldsLoop, Spec.renderFields, List.intercalate]
  | cons f rest ih =>
    intro i builder hn
    simp only [List.length_cons] at hn
    simp only [printer.writeFieldsLoop]
    rw [ih (i + 1) _ (by omega), printer.writeValue_append]
    cases rest with
    | nil =>
      have hlast : ¬ ((i : Int) < (n : Int) - 1) := by simp at hn; omega
      simp [hlast, Spec.renderFields, Spec.renderPair, Spec.renderValue, List.intercalate]
    | cons g more =>
      have hmid : (i : Int) < (n : Int) - 1 := by simp at hn; omega
      simp [hmid, Spec.renderFields, Spec.renderPair, Spec.renderValue, List.intercalate,
        List.intersperse]

theorem printer.writeFields_eq (builder : Str) (fs : List logger.Field) :
    printer.writeFields builder fs = builder ++ Spec.renderFields fs := by
  unfold printer.writeFields
  exact printer.writeFieldsLoop_eq fs.length fs 0 builder (by simp)

theorem Spec.escape_plain (s : Str) (hb : backslash ∉ s) (hd : dquote ∉ s) :
    Spec.escape s = s := by
  induction s with
  | nil => rfl
  | cons x xs ih =>
    have h1 : ¬ x = backslash := fun hx => hb (by simp [hx])
    have h2 : ¬ x = dquote := fun hx => hd (by simp [hx])
    have hb2 : backslash ∉ xs := fun hm => hb (List.mem_cons_of_mem _ hm)
    have hd2 : dquote ∉ xs := fun hm => hd (List.mem_cons_of_mem _ hm)
    have ih2 := ih hb2 hd2
    simp only [Spec.escape] at ih2 ⊢
    simp [List.flatMap_cons, Spec.escapeChar, h1, h2, ih2]

/-- The rendering of a text that needs neither escaping nor quoting and is
not the three letters `nil` is the text itself. -/
theorem printer.writeValue_plain (builder : Str) (value : Any) (h1 : value ≠ Any.nil)
    (h2 : value ≠ Any.str "nil".toList)
    (hsp : ' ' ∉ fmt.Sprintf_s value) (heq : '=' ∉ fmt.Sprintf_s value)
    (hb : backslash ∉ fmt.Sprintf_s value) (hd : dquote ∉ fmt.Sprintf_s value) :
    printer.writeValue builder value = builder ++ fmt.Sprintf_s value := by
  rw [printer.writeValue_general builder value h1 h2, Spec.escape_plain _ hb hd]
  simp [Spec.needsQuotes, hsp, heq]

theorem printer.Log_eq {σ : Type} (p : printer.Printer σ) (ctx : logger.Context)
    (entry : logger.Entry) (h : Heap) (w : σ) (hv : entry.Fields.valid h) :
    (printer.Adapter.mk (some p)).Log ctx entry h w =
      p.Println [Any.str (Spec.line entry.Level entry.Message (entry.Fields.read h)
        entry.Error)] w := by
  have hlen := Slice.read_length _ h hv
  unfold printer.Adapter.Log
  simp only [List.nil_append]
  congr 3
  have hF : (if entry.Fields.len > 0 then
        printer.writeFields (entry.Level ++ [' '] ++ entry.Message ++ [' ']) (entry.Fields.read h)
      else entry.Level ++ [' '] ++ entry.Message) =
      entry.Level ++ [' '] ++ entry.Message ++ Spec.fieldsPart (entry.Fields.read h) := by
    by_cases hz : entry.Fields.len > 0
    · have hne : entry.Fields.read h ≠ [] := by
        intro hnil
        rw [hnil] at hlen
        simp at hlen
        omega
      rw [if_pos hz, printer.writeFields_eq]
      simp [Spec.fieldsPart, hne]
    · have hnil : entry.Fields.read h = [] := by
        apply List.eq_nil_of_length_eq_zero
        omega
      rw [if_neg hz]
      simp [Spec.fieldsPart, hnil]
  rw [hF]
  cases entry.Error with
  | none => simp [Spec.line, Spec.errorPart]
  | some e =>
    simp only [Spec.line, Spec.errorPart, Spec.renderValue]
    rw [printer.writeValue_append]
    simp

/-- C5: a printer Adapter with a Printer makes exactly one `Println` call,
with the one operand `Level ++ " " ++ Message ++ F ++ E`: `F` is empty without
fields and otherwise a space and the `key=value` pairs (values as `writeValue`
renders them) joined by single spaces, `E` is empty without an error and
otherwise ` error=` and the `writeValue` rendering of the error.  With the
recording printer the record grows by exactly that one call. -/
theorem C5_printer_line_format {σ : Type} (f : printer.Adapter σ) (p : printer.Printer σ)
    (hp : f.Printer = some p) (ctx : logger.Context) (entry : logger.Entry) (h : Heap) (w : σ)
    (hv : entry.Fields.valid h) (t : List (List Any)) :
    f.Log ctx entry h w =
      p.Println [Any.str (entry.Level ++ [' '] ++ entry.Message ++
        (if entry.Fields.read h = [] then []
          else ' ' :: [' '].intercalate ((entry.Fields.read h).map
            (fun fd => fd.Key ++ ['='] ++ printer.writeValue [] fd.Value))) ++
        (match entry.Error with
          | none => []
          | some e => " error=".toList ++ printer.writeValue [] (Any.err e)))] w ∧
    (printer.Adapter.mk (some printer.recordingPrinter)).Log ctx entry h t =
      t ++ [[Any.str (Spec.line entry.Level entry.Message (entry.Fields.read h) entry.Error)]] := by
  obtain ⟨fp⟩ := f
  simp only at hp
  subst hp
  refine ⟨?_, ?_⟩
  · rw [printer.Log_eq p ctx entry h w hv]
    rfl
  · rw [printer.Log_eq printer.recordingPrinter ctx entry h t hv]
    rfl

/-- C5 at a concrete input: two fields, the second needing quotes, and an
error. -/
theorem C5_printer_line_format_witness :
    Slice.valid ⟨some 0, 2⟩ [[⟨"a".toList, Any.str "x".toList⟩, ⟨"b".toList, Any.str "y z".toList⟩]] ∧
    (printer.Adapter.mk (some printer.recordingPrinter)).Log 0
      ⟨"INFO".toList, "msg".toList, ⟨some 0, 2⟩, some ⟨"boom".toList⟩, 3⟩
      [[⟨"a".toList, Any.str "x".toList⟩, ⟨"b".toList, Any.str "y z".toList⟩]] [] =
      [[Any.str "INFO msg a=x b=\"y z\" error=boom".toList]] :=
  ⟨by decide,
    (C5_printer_line_format (printer.Adapter.mk (some printer.recordingPrinter))
      printer.recordingPrinter rfl 0
      ⟨"INFO".toList, "msg".toList, ⟨some 0, 2⟩, some ⟨"boom".toList⟩, 3⟩
      [[⟨"a".toList, Any.str "x".toList⟩, ⟨"b".toList, Any.str "y z".toList⟩]] []
      (by decide) []).1⟩

/-- C6: end to end, on a Logger without fields and error that is bound to a
printer Adapter, for a key `k`, a message `m` and a string value `v` that is
not `nil` and holds no space, `=`, backslash or double quote,
`With(k, v).Info(m)` prints `INFO m k=v`, `With(k, v).Warn(m)` prints
`WARN m k=v`, and `WithError(e).Error(m)` for an error with such a text `t`
prints `ERROR m error=t` (for an error the text `nil` needs no exclusion). -/
theorem C6_end_to_end_printer {σ : Type} (l : logger.Logger σ) (p : printer.Printer σ)
    (ha : l.adapter = some (printer.Adapter.mk (some p)).Log) (h : Heap)
    (hv : l.entry.Fields.valid h) (hf : l.entry.Fields.len = 0) (he : l.entry.Error = none)
    (m k v : Str) (e : GoError) (w : σ)
    (hnil : v ≠ "nil".toList) (hsp : ' ' ∉ v) (heq : '=' ∉ v) (hb : backslash ∉ v)
    (hd : dquote ∉ v)
    (tsp : ' ' ∉ e.Error) (teq : '=' ∉ e.Error)
    (tb : backslash ∉ e.Error) (td : dquote ∉ e.Error) :
    (∃ l1 h1, l.With k (Any.str v) h = Except.ok (l1, h1) ∧
      l1.Info m h1 w = Except.ok (p.Println
        [Any.str ("INFO ".toList ++ m ++ " ".toList ++ k ++ "=".toList ++ v)] w) ∧
      l1.Warn m h1 w = Except.ok (p.Println
        [Any.str ("WARN ".toList ++ m ++ " ".toList ++ k ++ "=".toList ++ v)] w)) ∧
    (l.WithError (some e)).Error m h w = Except.ok (p.Println
      [Any.str ("ERROR ".toList ++ m ++ " error=".toList ++ e.Error)] w) := by
  have hread : l.entry.Fields.read h = [] := by
    apply List.eq_nil_of_length_eq_zero
    rw [Slice.read_length _ h hv, hf]
  have hval : printer.writeValue [] (Any.str v) = v := by
    have := printer.writeValue_plain [] (Any.str v) (by simp)
      (fun hc => hnil (Any.str.inj hc)) hsp heq hb hd
    simpa [fmt.Sprintf_s] using this
  have herr : printer.writeValue [] (Any.err e) = e.Error := by
    have := printer.writeValue_plain [] (Any.err e) (by simp) (by simp) tsp teq tb td
    simpa [fmt.Sprintf_s] using this
  constructor
  · obtain ⟨l1, h1, hrun, had, _, herr1, _, hv1, hf1, _⟩ := logger.Logger.With_frame l k (Any.str v) h hv
    refine ⟨l1, h1, hrun, ?_, ?_⟩
    · simp only [logger.Logger.Info, logger.Logger.log, had, ha]
      rw [printer.Log_eq p _ _ h1 w (by exact hv1)]
      simp only [logger.Logger.fields] at hf1
      simp [hf1, hread, herr1, he, Spec.line, Spec.fieldsPart, Spec.renderFields, Spec.renderPair,
        Spec.renderValue, Spec.errorPart, hval, logger.InfoLevel, List.intercalate]
    · simp only [logger.Logger.Warn, logger.Logger.log, had, ha]
      rw [printer.Log_eq p _ _ h1 w (by exact hv1)]
      simp only [logger.Logger.fields] at hf1
      simp [hf1, hread, herr1, he, Spec.line, Spec.fieldsPart, Spec.renderFields, Spec.renderPair,
        Spec.renderValue, Spec.errorPart, hval, logger.WarnLevel, List.intercalate]
  · simp only [logger.Logger.Error, logger.Logger.log, logger.Logger.WithError, ha]
    rw [printer.Log_eq p _ _ h w (by exact hv)]
    simp [hread, Spec.line, Spec.fieldsPart, Spec.errorPart, Spec.renderValue, herr,
      logger.ErrorLevel]

/-- C6 at the scenarios of the specification:
`With("field_name","field_value").Info("Some info")`,
`WithError(ErrSome).Error("Error occurred")` and
`With("parameter","some").Warn("Deprecated configuration parameter.")`. -/
theorem C6_end_to_end_printer_witness :
    ("field_value".toList ≠ "nil".toList ∧ ' ' ∉ "field_value".toList ∧
      '=' ∉ "field_value".toList) ∧
    (∃ l1 h1,
      (logger.Logger.mk logger.Entry.zero
        (some (printer.Adapter.mk (some printer.recordingPrinter)).Log) 0).With
        "field_name".toList (Any.str "field_value".toList) [] = Except.ok (l1, h1) ∧
      l1.Info "Some info".toList h1 [] =
        Except.ok [[Any.str "INFO Some info field_name=field_value".toList]]) ∧
    ((logger.Logger.mk logger.Entry.zero
        (some (printer.Adapter.mk (some printer.recordingPrinter)).Log) 0).WithError
        (some ⟨"ErrSome".toList⟩)).Error "Error occurred".toList [] [] =
      Except.ok [[Any.str "ERROR Error occurred error=ErrSome".toList]] ∧
    (∃ l1 h1,
      (logger.Logger.mk logger.Entry.zero
        (some (printer.Adapter.mk (some printer.recordingPrinter)).Log) 0).With
        "parameter".toList (Any.str "some".toList) [] = Except.ok (l1, h1) ∧
      l1.Warn "Deprecated configuration parameter.".toList h1 [] =
        Except.ok [[Any.str "WARN Deprecated configuration parameter. parameter=some".toList]]) := by
  have s1 := C6_end_to_end_printer
    (logger.Logger.mk logger.Entry.zero
      (some (printer.Adapter.mk (some printer.recordingPrinter)).Log) 0)
    printer.recordingPrinter rfl [] (by decide) rfl rfl
    "Some info".toList "field_name".toList "field_value".toList ⟨"ErrSome".toList⟩ []
    (by decide) (by decide) (by decide) (by decide) (by decide)
    (by decide) (by decide) (by decide) (by decide)
  have s2 := C6_end_to_end_printer
    (logger.Logger.mk logger.Entry.zero
      (some (printer.Adapter.mk (some printer.recordingPrinter)).Log) 0)
    printer.recordingPrinter rfl [] (by decide) rfl rfl
    "Deprecated configuration parameter.".toList "parameter".toList "some".toList
    ⟨"ErrSome".toList⟩ []
    (by decide) (by decide) (by decide) (by decide) (by decide)
    (by decide) (by decide) (by decide) (by decide)
  obtain ⟨⟨a, ha, hwa, hia, _⟩, _⟩ := s1
  obtain ⟨⟨b, hb, hwb, _, hwarn⟩, _⟩ := s2
  refine ⟨⟨by decide, by decide, by decide⟩, ⟨a, ha, hwa, hia⟩, ?_, ⟨b, hb, hwb, hwarn⟩⟩
  exact (C6_end_to_end_printer
    (logger.Logger.mk logger.Entry.zero
      (some (printer.Adapter.mk (some printer.recordingPrinter)).Log) 0)
    printer.recordingPrinter rfl [] (by decide) rfl rfl
    "Error occurred".toList "field_name".toList "field_value".toList ⟨"ErrSome".toList⟩ []
    (by decide) (by decide) (by decide) (by decide) (by decide)
    (by decide) (by decide) (by decide) (by decide)).2

/-- C7, refuted as stated: the string `nil` is a non-nil value whose string
form holds neither a space nor an equals sign, and it is rendered between
double quotes. -/
theorem C7_quoting_law_fails_for_nil_string :
    Any.str "nil".toList ≠ Any.nil ∧
    Spec.stringForm (Any.str "nil".toList) = "nil".toList ∧
    Spec.needsQuotes (Spec.stringForm (Any.str "nil".toList)) = false ∧
    printer.writeValue [] (Any.str "nil".toList) = [dquote] ++ "nil".toList ++ [dquote] ∧
    ¬ Spec.QuotingLaw (Any.str "nil".toList) := by
  refine ⟨by decide, rfl, by decide, by decide, ?_⟩
  intro hlaw
  exact absurd (hlaw.2 (by decide)) (by decide)

/-- C7, amended: for every string other than `nil` and for every error,
`writeValue` appends the escaped string form (the text of the string, the
`Error()` text of the error) between a leading and a trailing double quote if
the string form holds a space or an equals sign, and appends it bare if the
string form holds neither.  Integers are left out of the law. -/
theorem C7_quoting_law {value : Any} (h1 : value ≠ Any.nil)
    (h2 : value ≠ Any.str "nil".toList) (h3 : ∀ n : Int, value ≠ Any.int n)
    (builder : Str) :
    Spec.QuotingLaw value ∧
    ((' ' ∈ Spec.stringForm value ∨ '=' ∈ Spec.stringForm value) →
      printer.writeValue builder value =
        builder ++ [dquote] ++ Spec.escape (Spec.stringForm value) ++ [dquote]) ∧
    ((' ' ∉ Spec.stringForm value ∧ '=' ∉ Spec.stringForm value) →
      printer.writeValue builder value = builder ++ Spec.escape (Spec.stringForm value)) := by
  have hform : fmt.Sprintf_s value = Spec.stringForm value := by
    cases value with
    | nil => exact absurd rfl h1
    | str s => rfl
    | err e => rfl
    | int n => exact absurd rfl (h3 n)
  have hgen := fun b : Str => printer.writeValue_general b value h1 h2
  rw [hform] at hgen
  refine ⟨⟨?_, ?_⟩, ?_, ?_⟩
  · intro hq
    simp only [Spec.renderValue]
    rw [hgen [], if_pos hq]
    simp
  · intro hq
    simp only [Spec.renderValue]
    rw [hgen [], hq]
    simp
  · intro hq
    have hq2 : Spec.needsQuotes (Spec.stringForm value) = true := by
      simpa [Spec.needsQuotes] using hq
    rw [hgen builder, if_pos hq2]
  · intro hq
    have hq2 : Spec.needsQuotes (Spec.stringForm value) = false := by
      simp [Spec.needsQuotes, hq.1, hq.2]
    rw [hgen builder, hq2]
    simp

/-- C7 (amended) at concrete inputs: the string `a b` is quoted, the string
`ab` is bare, and an error with the text `x=y` is quoted. -/
theorem C7_quoting_law_witness :
    Any.str "a b".toList ≠ Any.nil ∧ Any.str "a b".toList ≠ Any.str "nil".toList ∧
    (∀ n : Int, Any.str "a b".toList ≠ Any.int n) ∧
    printer.writeValue "k=".toList (Any.str "a b".toList) = "k=\"a b\"".toList ∧
    printer.writeValue "k=".toList (Any.str "ab".toList) = "k=ab".toList ∧
    printer.writeValue " error=".toList (Any.err ⟨"x=y".toList⟩) =
      " error=\"x=y\"".toList :=
  ⟨by decide, by decide, fun n hc => Any.noConfusion hc,
    (C7_quoting_law (by decide) (by decide) (fun n hc => Any.noConfusion hc)
      "k=".toList).2.1 (Or.inl (by decide)),
    (C7_quoting_law (by decide) (by decide) (fun n hc => Any.noConfusion hc)
      "k=".toList).2.2 ⟨by decide, by decide⟩,
    (C7_quoting_law (by decide) (by decide) (fun n hc => Any.noConfusion hc)
      " error=".toList).2.1 (Or.inr (by decide))⟩

/-- C8: for every string `s` other than `nil`, what `writeValue` appends is,
apart from the optional wrapping quotes, `s` escaped in one left-to-right pass
(backslash to two backslashes, double quote to backslash-double-quote, every
other character kept), whether or not the value is quoted; the two successive
`ReplaceAll` calls equal that single pass, so `a\b` gives `a\\b` and `a"b`
gives `a\"b`, not `a\\"b`. -/
theorem C8_escaping_law (s : Str) (hs : s ≠ "nil".toList) (builder : Str) :
    (∃ q : Str, (q = [] ∨ q = [dquote]) ∧ (q = [dquote] ↔ (' ' ∈ s ∨ '=' ∈ s)) ∧
      printer.writeValue builder (Any.str s) = builder ++ q ++ Spec.escape s ++ q) ∧
    strings.ReplaceAll (strings.ReplaceAll s [backslash] [backslash, backslash])
      [dquote] [backslash, dquote] = Spec.escape s ∧
    printer.writeValue [] (Any.str ['a', backslash, 'b']) = ['a', backslash, backslash, 'b'] ∧
    printer.writeValue [] (Any.str ['a', dquote, 'b']) = ['a', backslash, dquote, 'b'] ∧
    printer.writeValue [] (Any.str ['a', dquote, 'b']) ≠
      ['a', backslash, backslash, dquote, 'b'] := by
  refine ⟨?_, ?_, by decide, by decide, by decide⟩
  · have hgen := printer.writeValue_general builder (Any.str s) (by simp)
      (fun hc => hs (Any.str.inj hc))
    simp only [fmt.Sprintf_s] at hgen
    by_cases hq : Spec.needsQuotes s = true
    · refine ⟨[dquote], Or.inr rfl, ?_, ?_⟩
      · simpa [Spec.needsQuotes] using hq
      · rw [hgen, if_pos hq]
    · refine ⟨[], Or.inl rfl, ?_, ?_⟩
      · have hq2 : ¬ (' ' ∈ s ∨ '=' ∈ s) := by simpa [Spec.needsQuotes] using hq
        simp [hq2]
      · rw [hgen, if_neg hq]
        simp
  · rw [strings.ReplaceAll_single, strings.ReplaceAll_single]
    exact Spec.escape_two_pass s

/-- C8 at a concrete input: a text with a backslash, a double quote and a
space. -/
theorem C8_escaping_law_witness :
    ['a', backslash, dquote, ' ', 'b'] ≠ "nil".toList ∧
    strings.ReplaceAll (strings.ReplaceAll ['a', backslash, dquote, ' ', 'b'] [backslash]
      [backslash, backslash]) [dquote] [backslash, dquote] =
      ['a', backslash, backslash, backslash, dquote, ' ', 'b'] :=
  ⟨by decide, (C8_escaping_law ['a', backslash, dquote, ' ', 'b'] (by decide) []).2.1⟩

/-- C9: `writeValue` renders the nil value as the three characters `nil`
without quotes and the string `nil` as the five characters `"nil"`, so the
two renderings differ, whatever the builder holds. -/
theorem C9_nil_and_nil_string_differ (builder : Str) :
    printer.writeValue builder Any.nil = builder ++ ['n', 'i', 'l'] ∧
    printer.writeValue builder (Any.str "nil".toList) =
      builder ++ [dquote, 'n', 'i', 'l', dquote] ∧
    (printer.writeValue [] Any.nil).length = 3 ∧
    (printer.writeValue [] (Any.str "nil".toList)).length = 5 ∧
    printer.writeValue builder Any.nil ≠ printer.writeValue builder (Any.str "nil".toList) := by
  have h1 : printer.writeValue builder Any.nil = builder ++ ['n', 'i', 'l'] := by
    simp [printer.writeValue]
  have h2 : printer.writeValue builder (Any.str "nil".toList) =
      builder ++ [dquote, 'n', 'i', 'l', dquote] := by
    simp [printer.writeValue]
  refine ⟨h1, h2, by decide, by decide, ?_⟩
  rw [h1, h2]
  intro hc
  exact absurd (List.append_cancel_left hc) (by decide)

/-- C10: an absent error and an error with the empty message stay distinct.
`WithError(nil)` leaves no error in the Logger and `WithError(e)` leaves the
error `e`; for every entry the printer's line with the empty-message error is
the line without an error, which ends after the fields, followed by
` error=`, and the two lines differ. -/
theorem C10_absent_and_empty_error_differ {σ : Type} (l : logger.Logger σ) (e : GoError)
    (he : e.Error = []) (ctx : logger.Context) (entry : logger.Entry) (h : Heap)
    (hv : entry.Fields.valid h) (t : List (List Any)) :
    (l.WithError none).entry.Error = none ∧
    (l.WithError (some e)).entry.Error = some e ∧
    (l.WithError none).entry.Error ≠ (l.WithError (some e)).entry.Error ∧
    (printer.Adapter.mk (some printer.recordingPrinter)).Log ctx { entry with Error := none } h t =
      t ++ [[Any.str (entry.Level ++ [' '] ++ entry.Message ++
        Spec.fieldsPart (entry.Fields.read h))]] ∧
    (printer.Adapter.mk (some printer.recordingPrinter)).Log ctx { entry with Error := some e } h t =
      t ++ [[Any.str (entry.Level ++ [' '] ++ entry.Message ++
        Spec.fieldsPart (entry.Fields.read h) ++ " error=".toList)]] ∧
    (printer.Adapter.mk (some printer.recordingPrinter)).Log ctx { entry with Error := none } h t ≠
      (printer.Adapter.mk (some printer.recordingPrinter)).Log ctx
        { entry with Error := some e } h t := by
  have hnone : (printer.Adapter.mk (some printer.recordingPrinter)).Log ctx
      { entry with Error := none } h t =
      t ++ [[Any.str (entry.Level ++ [' '] ++ entry.Message ++
        Spec.fieldsPart (entry.Fields.read h))]] := by
    rw [printer.Log_eq printer.recordingPrinter ctx _ h t (by exact hv)]
    simp [printer.recordingPrinter, Spec.line, Spec.errorPart]
  have hsome : (printer.Adapter.mk (some printer.recordingPrinter)).Log ctx
      { entry with Error := some e } h t =
      t ++ [[Any.str (entry.Level ++ [' '] ++ entry.Message ++
        Spec.fieldsPart (entry.Fields.read h) ++ " error=".toList)]] := by
    have hval : printer.writeValue [] (Any.err e) = [] := by
      have := printer.writeValue_plain [] (Any.err e) (by simp) (by simp)
        (by simp [fmt.Sprintf_s, he]) (by simp [fmt.Sprintf_s, he])
        (by simp [fmt.Sprintf_s, he]) (by simp [fmt.Sprintf_s, he])
      simpa [fmt.Sprintf_s, he] using this
    rw [printer.Log_eq printer.recordingPrinter ctx _ h t (by exact hv)]
    simp [printer.recordingPrinter, Spec.line, Spec.errorPart, Spec.renderValue, hval]
  refine ⟨rfl, rfl, ?_, hnone, hsome, ?_⟩
  · simp [logger.Logger.WithError]
  · rw [hnone, hsome]
    intro hc
    have h1 := List.append_cancel_left hc
    simp only [List.cons.injEq, and_true, Any.str.injEq] at h1
    have h2 := congrArg List.length h1
    simp at h2

/-- C10 at a concrete input: an entry with one field, printed without an error
and with the empty-message error. -/
theorem C10_absent_and_empty_error_differ_witness :
    (⟨[]⟩ : GoError).Error = [] ∧
    Slice.valid ⟨some 0, 1⟩ [[⟨"k".toList, Any.str "v".toList⟩]] ∧
    (printer.Adapter.mk (some printer.recordingPrinter)).Log 0
      ⟨"INFO".toList, "m".toList, ⟨some 0, 1⟩, none, 0⟩
      [[⟨"k".toList, Any.str "v".toList⟩]] [] = [[Any.str "INFO m k=v".toList]] ∧
    (printer.Adapter.mk (some printer.recordingPrinter)).Log 0
      ⟨"INFO".toList, "m".toList, ⟨some 0, 1⟩, some ⟨[]⟩, 0⟩
      [[⟨"k".toList, Any.str "v".toList⟩]] [] = [[Any.str "INFO m k=v error=".toList]] :=
  ⟨rfl, by decide,
    (C10_absent_and_empty_error_differ
      (logger.Logger.mk logger.Entry.zero (none : Option (logger.Adapter Unit)) 0) ⟨[]⟩ rfl 0
      ⟨"INFO".toList, "m".toList, ⟨some 0, 1⟩, none, 0⟩
      [[⟨"k".toList, Any.str "v".toList⟩]] (by decide) []).2.2.2.1,
    (C10_absent_and_empty_error_differ
      (logger.Logger.mk logger.Entry.zero (none : Option (logger.Adapter Unit)) 0) ⟨[]⟩ rfl 0
      ⟨"INFO".toList, "m".toList, ⟨some 0, 1⟩, none, 0⟩
      [[⟨"k".toList, Any.str "v".toList⟩]] (by decide) []).2.2.2.2.1⟩

/-! ## The absent adapter, skipped frames, the global functions -/

/-- C11, the code at the failing input: on a Logger whose adapter is absent,
the zero-value Logger among them, each of `Debug`, `Info`, `Warn` and `Error`
ends in a nil-dereference fault instead of doing nothing. -/
theorem C11_absent_adapter_faults {σ : Type} (entry : logger.Entry) (ctx : logger.Context)
    (m : Str) (h : Heap) (w : σ) :
    (logger.Logger.mk entry (none : Option (logger.Adapter σ)) ctx).Debug m h w =
      Except.error Fault.nilDereference ∧
    (logger.Logger.mk entry (none : Option (logger.Adapter σ)) ctx).Info m h w =
      Except.error Fault.nilDereference ∧
    (logger.Logger.mk entry (none : Option (logger.Adapter σ)) ctx).Warn m h w =
      Except.error Fault.nilDereference ∧
    (logger.Logger.mk entry (none : Option (logger.Adapter σ)) ctx).Error m h w =
      Except.error Fault.nilDereference ∧
    (logger.Logger.mk logger.Entry.zero (none : Option (logger.Adapter σ)) 0).Info m h w ≠
      Except.ok w :=
  ⟨rfl, rfl, rfl, rfl, fun hc => Except.noConfusion hc⟩

/-- C12: `Log` on a printer Adapter whose Printer is absent returns with the
outside world as it was, so without a `Println` call and without a fault; a
Logger bound to such an adapter completes its level methods the same way. -/
theorem C12_absent_printer_drops_entry {σ : Type} (ctx : logger.Context) (entry : logger.Entry)
    (h : Heap) (w : σ) (t : List (List Any)) (l : logger.Logger σ) (m : Str) :
    (printer.Adapter.mk (none : Option (printer.Printer σ))).Log ctx entry h w = w ∧
    (printer.Adapter.mk (none : Option (printer.Printer (List (List Any))))).Log ctx entry h t
      = t ∧
    (logger.Logger.mk l.entry
      (some (printer.Adapter.mk (none : Option (printer.Printer σ))).Log) l.ctx).Info m h w =
      Except.ok w :=
  ⟨rfl, rfl, rfl⟩

theorem logger.Logger.withSkippedCallerFrames_eq {σ : Type} (l : logger.Logger σ) (n : Nat) :
    l.withSkippedCallerFrames n =
      { l with entry := { l.entry with
          SkippedCallerFrames := l.entry.SkippedCallerFrames + (n : Int) } } := by
  induction n with
  | zero => simp [logger.Logger.withSkippedCallerFrames]
  | succ k ih =>
    simp only [logger.Logger.withSkippedCallerFrames, ih, logger.Logger.WithSkippedCallerFrame]
    simp only [Nat.cast_add, Nat.cast_one, add_assoc]

/-- C13: `l.WithSkippedCallerFrame()` is `l` with the counter increased by
exactly one, the fields, error, adapter and context being those of `l`; after
`n` successive calls a level method hands the adapter an entry whose counter
is that of `l` plus `n` plus 3. -/
theorem C13_skipped_caller_frames {σ : Type} (l : logger.Logger σ) (a : logger.Adapter σ)
    (ha : l.adapter = some a) (n : Nat) (m : Str) (h : Heap) (w : σ) :
    (l.WithSkippedCallerFrame).entry.SkippedCallerFrames = l.entry.SkippedCallerFrames + 1 ∧
    (l.WithSkippedCallerFrame).entry.Fields = l.entry.Fields ∧
    (l.WithSkippedCallerFrame).entry.Error = l.entry.Error ∧
    (l.WithSkippedCallerFrame).entry.Level = l.entry.Level ∧
    (l.WithSkippedCallerFrame).entry.Message = l.entry.Message ∧
    (l.WithSkippedCallerFrame).adapter = l.adapter ∧
    (l.WithSkippedCallerFrame).ctx = l.ctx ∧
    (l.withSkippedCallerFrames n).Debug m h w = Except.ok (a l.ctx ⟨logger.DebugLevel, m,
      l.entry.Fields, l.entry.Error, l.entry.SkippedCallerFrames + (n : Int) + 3⟩ h w) ∧
    (l.withSkippedCallerFrames n).Info m h w = Except.ok (a l.ctx ⟨logger.InfoLevel, m,
      l.entry.Fields, l.entry.Error, l.entry.SkippedCallerFrames + (n : Int) + 3⟩ h w) ∧
    (l.withSkippedCallerFrames n).Warn m h w = Except.ok (a l.ctx ⟨logger.WarnLevel, m,
      l.entry.Fields, l.entry.Error, l.entry.SkippedCallerFrames + (n : Int) + 3⟩ h w) ∧
    (l.withSkippedCallerFrames n).Error m h w = Except.ok (a l.ctx ⟨logger.ErrorLevel, m,
      l.entry.Fields, l.entry.Error, l.entry.SkippedCallerFrames + (n : Int) + 3⟩ h w) := by
  rw [logger.Logger.withSkippedCallerFrames_eq]
  obtain ⟨entry, adapter, ctx⟩ := l
  simp only at ha
  subst ha
  exact ⟨rfl, rfl, rfl, rfl, rfl, rfl, rfl, rfl, rfl, rfl, rfl⟩

/-- C13 at a concrete input: two calls on a Logger with counter 5, then
`Info`, deliver the counter 10. -/
theorem C13_skipped_caller_frames_witness :
    (logger.Logger.mk ⟨[], [], Slice.nil, none, 5⟩ (some logger.recorder) 1).adapter =
      some logger.recorder ∧
    ((logger.Logger.mk ⟨[], [], Slice.nil, none, 5⟩ (some logger.recorder)
      1).WithSkippedCallerFrame.WithSkippedCallerFrame).Info "m".toList [] [] =
      Except.ok [(1, ⟨"INFO".toList, "m".toList, Slice.nil, none, 10⟩)] :=
  ⟨rfl, (C13_skipped_caller_frames
    (logger.Logger.mk ⟨[], [], Slice.nil, none, 5⟩ (some logger.recorder) 1)
    logger.recorder rfl 2 "m".toList [] []).2.2.2.2.2.2.2.2.1⟩

/-- C14: the encoder keeps no state of its own.  Whatever the builder holds,
`writeFields` leaves it holding the prior content followed by a text that
depends on the field sequence only, so encoding the same sequence twice, into
a fresh or into a reused builder, appends the same text both times; the same
holds for `writeValue`. -/
theorem C14_encoder_has_no_hidden_state (p q : Str) (fs : List logger.Field) (v : Any) :
    printer.writeFields p fs = p ++ printer.writeFields [] fs ∧
    printer.writeFields q fs = q ++ printer.writeFields [] fs ∧
    printer.writeFields (printer.writeFields p fs) fs =
      p ++ printer.writeFields [] fs ++ printer.writeFields [] fs ∧
    printer.writeValue p v = p ++ printer.writeValue [] v ∧
    printer.writeValue q v = q ++ printer.writeValue [] v ∧
    printer.writeValue (printer.writeValue p v) v =
      p ++ printer.writeValue [] v ++ printer.writeValue [] v := by
  have hf : ∀ b : Str, printer.writeFields b fs = b ++ printer.writeFields [] fs := by
    intro b
    rw [printer.writeFields_eq b fs, printer.writeFields_eq [] fs]
    simp
  have hw : ∀ b : Str, printer.writeValue b v = b ++ printer.writeValue [] v :=
    fun b => printer.writeValue_append b v
  refine ⟨hf p, hf q, ?_, hw p, hw q, ?_⟩
  · rw [hf (printer.writeFields p fs), hf p]
  · rw [hw (printer.writeValue p v), hw p]

/-- C15: each global function `Debug`, `Info`, `Warn`, `Error(ctx, m)` logs
through the Logger obtained from the global logger with one
`WithSkippedCallerFrame` applied, so the configured adapter receives the entry
that the same call on an explicit Logger bound to that adapter and `ctx`
delivers, with the counter 4 in the place of 3. -/
theorem C15_global_functions_skip_one_more_frame {σ : Type} (g : logger.Global σ)
    (a : logger.Adapter σ) (ha : g.adapter = some a) (ctx : logger.Context) (m : Str)
    (h : Heap) (w : σ) :
    logger.globalLoggerWithSkippedCallerFrame g ctx =
      (logger.Logger.mk logger.Entry.zero (some a) ctx).WithSkippedCallerFrame ∧
    (logger.Debug g ctx m h w =
        Except.ok (a ctx ⟨logger.DebugLevel, m, Slice.nil, none, 4⟩ h w) ∧
      (logger.Logger.mk logger.Entry.zero (some a) ctx).Debug m h w =
        Except.ok (a ctx ⟨logger.DebugLevel, m, Slice.nil, none, 3⟩ h w)) ∧
    (logger.Info g ctx m h w =
        Except.ok (a ctx ⟨logger.InfoLevel, m, Slice.nil, none, 4⟩ h w) ∧
      (logger.Logger.mk logger.Entry.zero (some a) ctx).Info m h w =
        Except.ok (a ctx ⟨logger.InfoLevel, m, Slice.nil, none, 3⟩ h w)) ∧
    (logger.Warn g ctx m h w =
        Except.ok (a ctx ⟨logger.WarnLevel, m, Slice.nil, none, 4⟩ h w) ∧
      (logger.Logger.mk logger.Entry.zero (some a) ctx).Warn m h w =
        Except.ok (a ctx ⟨logger.WarnLevel, m, Slice.nil, none, 3⟩ h w)) ∧
    (logger.Error g ctx m h w =
        Except.ok (a ctx ⟨logger.ErrorLevel, m, Slice.nil, none, 4⟩ h w) ∧
      (logger.Logger.mk logger.Entry.zero (some a) ctx).Error m h w =
        Except.ok (a ctx ⟨logger.ErrorLevel, m, Slice.nil, none, 3⟩ h w)) := by
  obtain ⟨ga⟩ := g
  simp only at ha
  subst ha
  exact ⟨rfl, ⟨rfl, rfl⟩, ⟨rfl, rfl⟩, ⟨rfl, rfl⟩, ⟨rfl, rfl⟩⟩

/-- C15 at a concrete input: the global `Warn` with the recording adapter
configured. -/
theorem C15_global_functions_skip_one_more_frame_witness :
    (logger.Global.mk (some logger.recorder)).adapter = some logger.recorder ∧
    logger.Warn (logger.Global.mk (some logger.recorder)) 9 "m".toList [] [] =
      Except.ok [(9, ⟨"WARN".toList, "m".toList, Slice.nil, none, 4⟩)] :=
  ⟨rfl, (C15_global_functions_skip_one_more_frame (logger.Global.mk (some logger.recorder))
    logger.recorder rfl 9 "m".toList [] []).2.2.2.1.1⟩

/-! ## Line breaks, integers, decoding -/

theorem Spec.intercalate_cons_cons (x y : Str) (rest : List Str) :
    [' '].intercalate (x :: y :: rest) = x ++ ' ' :: [' '].intercalate (y :: rest) := by
  simp [List.intercalate, List.intersperse]

theorem Spec.not_mem_intercalate (c : Char) (hc : c ≠ ' ') (xs : List Str)
    (hx : ∀ x ∈ xs, c ∉ x) : c ∉ [' '].intercalate xs := by
  induction xs with
  | nil => simp [List.intercalate]
  | cons x rest ih =>
    cases rest with
    | nil =>
      have h1 := hx x (by simp)
      simpa [List.intercalate] using h1
    | cons y more =>
      rw [Spec.intercalate_cons_cons]
      have h1 := hx x (by simp)
      have h2 := ih (fun z hz => hx z (List.mem_cons_of_mem _ hz))
      simp only [List.mem_append, List.mem_cons, not_or]
      exact ⟨h1, hc, h2⟩

theorem printer.not_mem_writeValue (c : Char) (hc : c = lineFeed ∨ c = carriageReturn)
    (value : Any) (hv : c ∉ fmt.Sprintf_s value) : c ∉ printer.writeValue [] value := by
  have hb : c ≠ backslash := by rcases hc with rfl | rfl <;> decide
  have hd : c ≠ dquote := by rcases hc with rfl | rfl <;> decide
  have hn : c ∉ "nil".toList := by rcases hc with rfl | rfl <;> decide
  by_cases h1 : value = Any.nil
  · subst h1
    simpa [printer.writeValue] using hn
  · by_cases h2 : value = Any.str "nil".toList
    · subst h2
      have hq : c ∉ [dquote] ++ "nil".toList ++ [dquote] := by
        rcases hc with rfl | rfl <;> decide
      simpa [printer.writeValue] using hq
    · rw [printer.writeValue_general [] value h1 h2]
      have he : c ∉ Spec.escape (fmt.Sprintf_s value) := fun hm =>
        hv ((Spec.mem_escape_of_plain c hb hd _).1 hm)
      cases Spec.needsQuotes (fmt.Sprintf_s value) <;> simp [he, hd]

/-- C17, refuted as stated: a message that holds a line feed is printed with
the line feed in it. -/
theorem C17_line_feed_in_message_is_printed :
    (printer.Adapter.mk (some printer.recordingPrinter)).Log 0
      ⟨"INFO".toList, ['a', lineFeed, 'b'], Slice.nil, none, 0⟩ [] [] =
      [[Any.str ("INFO ".toList ++ ['a', lineFeed, 'b'])]] ∧
    lineFeed ∈ "INFO ".toList ++ ['a', lineFeed, 'b'] := by
  decide

/-- C17, amended: for every entry whose level, message, keys and string forms
of the values and of the error hold no line feed and no carriage return, the
string the printer Adapter passes to `Println` holds none either: the printer
adds no line break of its own. -/
theorem C17_printer_adds_no_line_break {σ : Type} (p : printer.Printer σ)
    (ctx : logger.Context) (entry : logger.Entry) (h : Heap) (w : σ)
    (hv : entry.Fields.valid h)
    (hlevel : lineFeed ∉ entry.Level ∧ carriageReturn ∉ entry.Level)
    (hmsg : lineFeed ∉ entry.Message ∧ carriageReturn ∉ entry.Message)
    (hfields : ∀ f ∈ entry.Fields.read h,
      (lineFeed ∉ f.Key ∧ carriageReturn ∉ f.Key) ∧
      (lineFeed ∉ fmt.Sprintf_s f.Value ∧ carriageReturn ∉ fmt.Sprintf_s f.Value))
    (herr : ∀ e, entry.Error = some e → lineFeed ∉ e.Error ∧ carriageReturn ∉ e.Error) :
    ∃ text : Str, (printer.Adapter.mk (some p)).Log ctx entry h w = p.Println [Any.str text] w ∧
      lineFeed ∉ text ∧ carriageReturn ∉ text := by
  refine ⟨_, printer.Log_eq p ctx entry h w hv, ?_⟩
  have key : ∀ c : Char, (c = lineFeed ∨ c = carriageReturn) →
      c ∉ entry.Level → c ∉ entry.Message →
      (∀ f ∈ entry.Fields.read h, c ∉ f.Key ∧ c ∉ fmt.Sprintf_s f.Value) →
      (∀ e, entry.Error = some e → c ∉ e.Error) →
      c ∉ Spec.line entry.Level entry.Message (entry.Fields.read h) entry.Error := by
    intro c hc h1 h2 h3 h4
    have hsp : c ≠ ' ' := by rcases hc with rfl | rfl <;> decide
    have heq : c ≠ '=' := by rcases hc with rfl | rfl <;> decide
    have hF : c ∉ Spec.fieldsPart (entry.Fields.read h) := by
      unfold Spec.fieldsPart
      by_cases hnil : entry.Fields.read h = []
      · simp [hnil]
      · rw [if_neg hnil]
        simp only [List.mem_cons, not_or]
        refine ⟨hsp, ?_⟩
        apply Spec.not_mem_intercalate c hsp
        intro x hx
        obtain ⟨f, hf, rfl⟩ := List.mem_map.1 hx
        have hk := h3 f hf
        have hval := printer.not_mem_writeValue c hc f.Value hk.2
        simp only [Spec.renderPair, Spec.renderValue, List.mem_append, List.mem_singleton,
          not_or]
        exact ⟨⟨hk.1, heq⟩, hval⟩
    have hE : c ∉ Spec.errorPart entry.Error := by
      cases he : entry.Error with
      | none => simp [Spec.errorPart]
      | some e =>
        have hpre : c ∉ " error=".toList := by rcases hc with rfl | rfl <;> decide
        have hval := printer.not_mem_writeValue c hc (Any.err e) (h4 e he)
        simp only [Spec.errorPart, Spec.renderValue, List.mem_append, not_or]
        exact ⟨hpre, hval⟩
    simp only [Spec.line, List.mem_append, List.mem_singleton, not_or]
    exact ⟨⟨⟨⟨h1, hsp⟩, h2⟩, hF⟩, hE⟩
  exact ⟨key lineFeed (Or.inl rfl) hlevel.1 hmsg.1 (fun f hf => ⟨(hfields f hf).1.1, (hfields f hf).2.1⟩)
      (fun e he => (herr e he).1),
    key carriageReturn (Or.inr rfl) hlevel.2 hmsg.2
      (fun f hf => ⟨(hfields f hf).1.2, (hfields f hf).2.2⟩) (fun e he => (herr e he).2)⟩

/-- C17 (amended) at a concrete input: an entry with one field and an
error. -/
theorem C17_printer_adds_no_line_break_witness :
    Slice.valid ⟨some 0, 1⟩ [[⟨"k".toList, Any.str "a b".toList⟩]] ∧
    ∃ text : Str,
      (printer.Adapter.mk (some printer.recordingPrinter)).Log 0
        ⟨"WARN".toList, "m".toList, ⟨some 0, 1⟩, some ⟨"boom".toList⟩, 3⟩
        [[⟨"k".toList, Any.str "a b".toList⟩]] [] = [[Any.str text]] ∧
      lineFeed ∉ text ∧ carriageReturn ∉ text := by
  refine ⟨by decide, ?_⟩
  exact C17_printer_adds_no_line_break printer.recordingPrinter 0
    ⟨"WARN".toList, "m".toList, ⟨some 0, 1⟩, some ⟨"boom".toList⟩, 3⟩
    [[⟨"k".toList, Any.str "a b".toList⟩]] [] (by decide) (by decide) (by decide) (by decide)
    (fun e he => by
      have he2 : (⟨"boom".toList⟩ : GoError) = e := Option.some.inj he
      subst he2
      decide)

/-- C18, the code at the failing input: the verb `%s` applied to an `int`
makes `fmt` write `%!s(int=N)`, which holds an equals sign, so `writeValue`
renders every integer between double quotes and never as its bare decimal
text; `With("rows_updated", 3)` is written as `rows_updated="%!s(int=3)"`. -/
theorem C18_integer_rendered_with_bad_verb (n : Int) (builder : Str) :
    printer.writeValue builder (Any.int n) =
      builder ++ [dquote] ++ Spec.escape ("%!s(int=".toList ++ fmt.formatInt n ++ ")".toList)
        ++ [dquote] ∧
    printer.writeValue [] (Any.int 3) = [dquote] ++ "%!s(int=3)".toList ++ [dquote] ∧
    printer.writeValue [] (Any.int 3) ≠ "3".toList ∧
    printer.writeFields [] [⟨"rows_updated".toList, Any.int 3⟩] =
      "rows_updated=".toList ++ [dquote] ++ "%!s(int=3)".toList ++ [dquote] ∧
    printer.writeFields [] [⟨"rows_updated".toList, Any.int 3⟩] ≠ "rows_updated=3".toList := by
  refine ⟨?_, by decide, by decide, by decide, by decide⟩
  rw [printer.writeValue_general builder (Any.int n) (by simp) (by simp)]
  have hq : Spec.needsQuotes (fmt.Sprintf_s (Any.int n)) = true := by
    simp [Spec.needsQuotes, fmt.Sprintf_s]
  rw [if_pos hq]
  rfl

theorem Spec.unescape_cons_plain (x : Char) (hx : x ≠ backslash) (t : Str) :
    Spec.unescape (x :: t) = x :: Spec.unescape t := by
  cases t with
  | nil => simp [Spec.unescape]
  | cons d rest => simp [Spec.unescape, hx]

theorem Spec.unescape_escape (s : Str) : Spec.unescape (Spec.escape s) = s := by
  induction s with
  | nil => simp [Spec.escape, Spec.unescape]
  | cons x xs ih =>
    simp only [Spec.escape, List.flatMap_cons] at ih ⊢
    by_cases h1 : x = backslash
    · subst h1
      simp [Spec.escapeChar, Spec.unescape, ih]
    · by_cases h2 : x = dquote
      · subst h2
        simp [Spec.escapeChar, h1, Spec.unescape, ih]
      · simp only [Spec.escapeChar, h1, h2, if_false, List.singleton_append]
        rw [Spec.unescape_cons_plain x h1, ih]

theorem Spec.escape_injective (s t : Str) (h : Spec.escape s = Spec.escape t) : s = t := by
  have := congrArg Spec.unescape h
  rwa [Spec.unescape_escape, Spec.unescape_escape] at this

theorem Spec.escape_head (s : Str) (t : Str) : Spec.escape s ≠ dquote :: t := by
  cases s with
  | nil => simp [Spec.escape]
  | cons x xs =>
    have hbd : ¬ backslash = dquote := by decide
    simp only [Spec.escape, List.flatMap_cons]
    by_cases h1 : x = backslash
    · subst h1
      simp [Spec.escapeChar, hbd]
    · by_cases h2 : x = dquote
      · subst h2
        simp [Spec.escapeChar, h1, hbd]
      · simp [Spec.escapeChar, h1, h2]

/-- The rendering of a string other than `nil`, with the quotes made
explicit. -/
theorem printer.writeValue_str (s : Str) (hs : s ≠ "nil".toList) :
    printer.writeValue [] (Any.str s) =
      if Spec.needsQuotes s then dquote :: (Spec.escape s ++ [dquote]) else Spec.escape s := by
  rw [printer.writeValue_general [] (Any.str s) (by simp) (fun hc => hs (Any.str.inj hc))]
  simp [fmt.Sprintf_s]

theorem Spec.decodeValue_str (s : Str) (hs : s ≠ "nil".toList) :
    printer.writeValue [] (Any.str s) ≠ "nil".toList ∧
    printer.writeValue [] (Any.str s) ≠ [dquote] ++ "nil".toList ++ [dquote] ∧
    Spec.decodeValue (printer.writeValue [] (Any.str s)) = Any.str s := by
  rw [printer.writeValue_str s hs]
  have hnil : Spec.escape "nil".toList = "nil".toList := by decide
  have hne : Spec.escape s ≠ "nil".toList := by
    intro hc
    exact hs (Spec.escape_injective s "nil".toList (by rw [hc, hnil]))
  by_cases hq : Spec.needsQuotes s = true
  · simp only [hq, if_true]
    have h1 : dquote :: (Spec.escape s ++ [dquote]) ≠ "nil".toList := by
      intro hc
      have := (List.cons.inj hc).1
      exact absurd this (by decide)
    have h2 : dquote :: (Spec.escape s ++ [dquote]) ≠ [dquote] ++ "nil".toList ++ [dquote] := by
      intro hc
      have h3 : Spec.escape s ++ [dquote] = "nil".toList ++ [dquote] := (List.cons.inj hc).2
      exact hne (List.append_cancel_right h3)
    refine ⟨h1, h2, ?_⟩
    unfold Spec.decodeValue
    rw [if_neg h1, if_neg h2]
    simp [Spec.unescape_escape]
  · have hq2 : Spec.needsQuotes s = false := by simpa using hq
    simp only [hq2]
    have h2 : Spec.escape s ≠ [dquote] ++ "nil".toList ++ [dquote] := Spec.escape_head s _
    refine ⟨by simpa using hne, by simpa using h2, ?_⟩
    unfold Spec.decodeValue
    simp only [Bool.false_eq_true, if_false]
    rw [if_neg hne, if_neg h2]
    cases hes : Spec.escape s with
    | nil =>
      have : s = [] := Spec.escape_injective s [] (by rw [hes]; rfl)
      simp [this]
    | cons c rest =>
      have hc : c ≠ dquote := by
        intro hcd
        subst hcd
        exact Spec.escape_head s rest hes
      simp only [hc, if_false]
      rw [← hes, Spec.unescape_escape]

theorem Spec.decodeValue_render (v : Any) (hv : v.isNilOrString = true) :
    Spec.decodeValue (printer.writeValue [] v) = v := by
  cases v with
  | nil => decide
  | str s =>
    by_cases hs : s = "nil".toList
    · subst hs; decide
    · exact (Spec.decodeValue_str s hs).2.2
  | err e => simp [Any.isNilOrString] at hv
  | int n => simp [Any.isNilOrString] at hv

/-- C19: on the nil value and the strings `writeValue` is injective: two
values of that domain with the same rendering (appended to any builder) are
equal, and a decoder recovers the value from its rendering; no string is
rendered as bare `nil`, and no string other than `nil` is rendered as `nil`
in double quotes. -/
theorem C19_writeValue_injective_on_nil_and_strings (v1 v2 : Any)
    (h1 : v1.isNilOrString = true) (h2 : v2.isNilOrString = true) (builder : Str) :
    (printer.writeValue builder v1 = printer.writeValue builder v2 → v1 = v2) ∧
    Spec.decodeValue (printer.writeValue [] v1) = v1 ∧
    (∀ s : Str, printer.writeValue [] (Any.str s) ≠ "nil".toList) ∧
    (∀ s : Str, s ≠ "nil".toList →
      printer.writeValue [] (Any.str s) ≠ [dquote] ++ "nil".toList ++ [dquote]) := by
  refine ⟨?_, Spec.decodeValue_render v1 h1, ?_, ?_⟩
  · intro heq
    rw [printer.writeValue_append builder v1, printer.writeValue_append builder v2] at heq
    have hr := congrArg Spec.decodeValue (List.append_cancel_left heq)
    rwa [Spec.decodeValue_render v1 h1, Spec.decodeValue_render v2 h2] at hr
  · intro s
    by_cases hs : s = "nil".toList
    · subst hs; decide
    · exact (Spec.decodeValue_str s hs).1
  · intro s hs
    exact (Spec.decodeValue_str s hs).2.1

/-- C19 at concrete inputs: the nil value and the string `nil` are told apart,
and a quoted string with an escaped character is decoded. -/
theorem C19_writeValue_injective_on_nil_and_strings_witness :
    Any.isNilOrString Any.nil = true ∧
    Any.isNilOrString (Any.str ['a', dquote, ' ', 'b']) = true ∧
    Spec.decodeValue (printer.writeValue [] (Any.str ['a', dquote, ' ', 'b'])) =
      Any.str ['a', dquote, ' ', 'b'] ∧
    (printer.writeValue "k=".toList (Any.str "nil".toList) =
      printer.writeValue "k=".toList Any.nil → Any.str "nil".toList = Any.nil) :=
  ⟨rfl, rfl,
    (C19_writeValue_injective_on_nil_and_strings (Any.str ['a', dquote, ' ', 'b']) Any.nil
      rfl rfl []).2.1,
    (C19_writeValue_injective_on_nil_and_strings (Any.str "nil".toList) Any.nil
      rfl rfl "k=".toList).1⟩

/-- C20: keys are written as they are, without escaping or quotes, so the
rendering of field sequences is not injective: the one-field sequence
`[("a=x b", "y")]` and the two-field sequence `[("a", "x"), ("b", "y")]` are
both written as `a=x b=y`. -/
theorem C20_writeFields_not_injective (builder k : Str) (v : Any) :
    printer.writeFields builder [⟨k, v⟩] = builder ++ k ++ ['='] ++ printer.writeValue [] v ∧
    printer.writeFields [] [⟨"a=x b".toList, Any.str "y".toList⟩] = "a=x b=y".toList ∧
    printer.writeFields []
      [⟨"a".toList, Any.str "x".toList⟩, ⟨"b".toList, Any.str "y".toList⟩] = "a=x b=y".toList ∧
    ([⟨"a=x b".toList, Any.str "y".toList⟩] : List logger.Field) ≠
      [⟨"a".toList, Any.str "x".toList⟩, ⟨"b".toList, Any.str "y".toList⟩] ∧
    ¬ Function.Injective (printer.writeFields []) := by
  have e1 : printer.writeFields [] [⟨"a=x b".toList, Any.str "y".toList⟩] = "a=x b=y".toList := by
    decide
  have e2 : printer.writeFields []
      [⟨"a".toList, Any.str "x".toList⟩, ⟨"b".toList, Any.str "y".toList⟩] = "a=x b=y".toList := by
    decide
  have ne : ([⟨"a=x b".toList, Any.str "y".toList⟩] : List logger.Field) ≠
      [⟨"a".toList, Any.str "x".toList⟩, ⟨"b".toList, Any.str "y".toList⟩] := by
    decide
  refine ⟨?_, e1, e2, ne, ?_⟩
  · rw [printer.writeFields_eq]
    simp [Spec.renderFields, Spec.renderPair, Spec.renderValue, List.intercalate]
  · intro hinj
    exact ne (hinj (e1.trans e2.symm))

end Yala
